import Mathlib

/-!
The replicated-sdk heartbeat and mock store

A shallow embedding of `pkg/heartbeat/util.go` and `pkg/mock/mock.go`:

* `canReport` decides whether the running SDK pod may send a heartbeat, by
  comparing the revision of the replica-set that owns the pod with the revision of
  the replicated deployment;
* `GetHeartbeatInfoHeaders` turns a heartbeat-info record into HTTP headers, which
  `InjectHeartbeatInfoHeaders` sets on a request;
* the mock store keeps a mock data set as JSON under one key of a secret
  (`SetMockData`, `GetMockData`, `DeleteMockData` and the read operations).

Go values are embedded as follows.

* A Go `map[string]string` is an association list (`GoMap`); `mapGet` is the
  two-valued lookup `v, ok := m[k]` and `mapSet` is the assignment `m[k] = v`.
* A Go `error` is a value of `Error`; `nil` is `none`, so a Go result `(bool, error)`
  is a `Bool × Option Error`.
* The Kubernetes client (`kubernetes.Interface`) is a record of `Get` functions, each
  of which answers with the object or with an error.
* Go's `int` is taken to be 64 bits wide; integers are `Int`.
* A Go `string` of the heartbeat package, a key or a value of a secret and the text of
  a `[]byte` payload are a `String`, that is Unicode text. A string field of the mock
  data is a `GoString`, which can also hold bytes that are not valid UTF-8:
  `json.Marshal` writes the character U+FFFD for each of them.
* The secrets behind the client of the mock store are a state that `Update` changes;
  an operation that updates returns the state after it.

Definitions come first, for both packages; the lemmas and the claims follow.
-/

namespace Heartbeat

/-! ## Go runtime and standard library -/

/-- Go `error` values that occur in the packages: an error returned by the Kubernetes
client, a `*strconv.NumError` (function name and offending input; the wrapped cause,
`ErrSyntax` or `ErrRange`, is not tracked), an error of `encoding/json`, and
`errors.Wrap(cause, msg)`. -/
inductive Error where
  | api (msg : String)
  | NumError (Func Num : String)
  | json (msg : String)
  | wrap (cause : Error) (msg : String)
  deriving DecidableEq, Repr

deriving instance DecidableEq for Except

/-- Go `errors.Wrap(err, msg)` for a non-nil `err`. -/
def Wrap (err : Error) (msg : String) : Error := Error.wrap err msg

/-- Go `errors.Wrapf(err, format, arg)` for a non-nil `err` and a format that ends in
one `%s`; `msg` is the format without the verb. -/
def Wrapf (err : Error) (msg arg : String) : Error := Error.wrap err (msg ++ arg)

/-- A Go `map[string]string`. -/
abbrev GoMap := List (String × String)

/-- Go `v, ok := m[k]`: `some v` when `ok`, `none` otherwise. -/
def mapGet (m : GoMap) (k : String) : Option String := List.lookup k m

/-- Go `m[k] = v`. -/
def mapSet (m : GoMap) (k v : String) : GoMap :=
  (k, v) :: m.filter (fun e => e.1 != k)

/-- The decimal digits of `cs` read left to right onto the accumulator `n`; `none` when
a character is not one of `0`..`9`. -/
def parseDigits : List Char → Nat → Option Nat
  | [], n => some n
  | c :: cs, n =>
    if '0' ≤ c ∧ c ≤ '9' then parseDigits cs (n * 10 + (c.toNat - '0'.toNat)) else none

/-- Go `strconv.Atoi(s)` on a 64-bit platform: an optional sign `+` or `-` followed by
one or more decimal digits, the value lying in `[-2^63, 2^63 - 1]`; everything else is
a `*NumError`. -/
def Atoi (s : String) : Except Error Int :=
  match s.toList with
  | [] => .error (.NumError "Atoi" s)
  | c :: cs =>
    let body := if c = '-' ∨ c = '+' then cs else c :: cs
    if body.isEmpty then .error (.NumError "Atoi" s)
    else
      match parseDigits body 0 with
      | none => .error (.NumError "Atoi" s)
      | some n =>
        let v : Int := if c = '-' then -(n : Int) else (n : Int)
        if v < -(2 : Int) ^ 63 ∨ (2 : Int) ^ 63 ≤ v then .error (.NumError "Atoi" s)
        else .ok v

/-- The decimal digit character of `d < 10`. -/
def digitChar (d : Nat) : Char := Char.ofNat ('0'.toNat + d)

/-- The loop of `strconv`'s `formatBits` in base ten: while `u ≥ 10` the digit `u % 10`
is written in front of `acc` and `u` becomes `u / 10`; the last digit `u < 10` is
written at the end. `fuel` bounds the number of rounds. -/
def formatBitsLoop : Nat → Nat → List Char → List Char
  | 0, _, acc => acc
  | fuel + 1, u, acc =>
    if u < 10 then digitChar u :: acc
    else formatBitsLoop fuel (u / 10) (digitChar (u % 10) :: acc)

/-- The decimal digits of `u`, most significant first (`u + 1` rounds always suffice). -/
def formatBits (u : Nat) : List Char := formatBitsLoop (u + 1) u []

/-- Go `strconv.FormatInt(i, 10)`. -/
def FormatInt (i : Int) : String :=
  if i < 0 then String.mk ('-' :: formatBits i.natAbs) else String.mk (formatBits i.natAbs)

/-! ## Kubernetes objects and the client -/

/-- The fields of `metav1.OwnerReference` that `canReport` reads. -/
structure OwnerReference where
  APIVersion : String
  Kind : String
  Name : String
  deriving DecidableEq, Repr

/-- The fields of `corev1.Pod` that `canReport` reads. -/
structure Pod where
  OwnerReferences : List OwnerReference
  deriving DecidableEq, Repr

/-- The fields of `appsv1.ReplicaSet` that `canReport` reads. -/
structure ReplicaSet where
  Name : String
  Annotations : GoMap
  deriving DecidableEq, Repr

/-- The fields of `appsv1.Deployment` that `canReport` reads. -/
structure Deployment where
  Annotations : GoMap
  deriving DecidableEq, Repr

/-- The calls on `kubernetes.Interface` that `canReport` makes, each by namespace and
name: `AppsV1().Deployments(ns).Get`, `CoreV1().Pods(ns).Get` and
`AppsV1().ReplicaSets(ns).Get`. -/
structure Clientset where
  DeploymentsGet : String → String → Except Error Deployment
  PodsGet : String → String → Except Error Pod
  ReplicaSetsGet : String → String → Except Error ReplicaSet

/-- What `canReport` reads from its collaborators, for a license type `License`: the
predicates `util.IsAirgap()`, `util.IsDevEnv()` and `util.IsDevLicense(license)` (the
license is a pointer, `none` being `nil`), the name `util.GetReplicatedDeploymentName()`
and the process environment `os.Getenv`. -/
structure Env (License : Type) where
  IsAirgap : Bool
  IsDevEnv : Bool
  IsDevLicense : Option License → Bool
  GetReplicatedDeploymentName : String
  Getenv : String → String

/-- The annotation that carries the rollout revision of a deployment or replica-set. -/
def revisionAnnotationKey : String := "deployment.kubernetes.io/revision"

/-! ## canReport -/

/-- The loop of `canReport` over `pod.ObjectMeta.OwnerReferences`, started with the
current value of `podRevision`. The first component lists the names passed to
`ReplicaSets(ns).Get`, in call order; the second is the final `podRevision`, or the
error with which `canReport` returns from inside the loop. -/
def podRevisionLoop (clientset : Clientset) (ns : String) :
    List OwnerReference → Int → List String × Except Error Int
  | [], podRevision => ([], .ok podRevision)
  | owner :: rest, podRevision =>
    if owner.APIVersion != "apps/v1" || owner.Kind != "ReplicaSet" then
      podRevisionLoop clientset ns rest podRevision
    else
      match clientset.ReplicaSetsGet ns owner.Name with
      | .error err => ([owner.Name], .error (Wrapf err "failed to get replicaset " owner.Name))
      | .ok replicaSet =>
        match mapGet replicaSet.Annotations revisionAnnotationKey with
        | none =>
          let r := podRevisionLoop clientset ns rest podRevision
          (owner.Name :: r.1, r.2)
        | some revision =>
          match Atoi revision with
          | .error err =>
            ([owner.Name], .error
              (Wrapf err "failed to parse revision annotation for replicaset " replicaSet.Name))
          | .ok parsed =>
            let r := podRevisionLoop clientset ns rest parsed
            (owner.Name :: r.1, r.2)

/-- The deployment's revision in `canReport`: `deploymentRevision` is 0 unless the
annotation is there, and a value that does not parse is an error. -/
def deploymentRevision (deployment : Deployment) : Except Error Int :=
  match mapGet deployment.Annotations revisionAnnotationKey with
  | none => .ok 0
  | some drv =>
    match Atoi drv with
    | .error err => .error (Wrap err "failed to parse revision annotation for deployment")
    | .ok parsed => .ok parsed

/-- Go `canReport(clientset, namespace, license)`. -/
def canReport {License : Type} (env : Env License) (clientset : Clientset) (ns : String)
    (license : Option License) : Bool × Option Error :=
  if env.IsAirgap then (false, none)
  else if env.IsDevEnv && !env.IsDevLicense license then (false, none)
  else
    match clientset.DeploymentsGet ns env.GetReplicatedDeploymentName with
    | .error err => (false, some (Wrap err "failed to get replicated deployment"))
    | .ok deployment =>
      match clientset.PodsGet ns (env.Getenv "REPLICATED_POD_NAME") with
      | .error err => (false, some (Wrap err "failed to get replicated pod"))
      | .ok pod =>
        match (podRevisionLoop clientset ns pod.OwnerReferences 0).2 with
        | .error err => (false, some err)
        | .ok podRevision =>
          match deploymentRevision deployment with
          | .error err => (false, some err)
          | .ok deploymentRevision =>
            if podRevision != deploymentRevision then (false, none) else (true, none)

/-! ## Heartbeat headers -/

/-- Modelled from the spec: the record `types.HeartbeatInfo`, whose declaration is in
package `pkg/heartbeat/types`. It has the fields that `GetHeartbeatInfoHeaders` reads
and the additional-metrics mapping (`types.AdditionalMetrics`, string keys and values)
that the test of `InjectHeartbeatInfoHeaders` fills in. -/
structure HeartbeatInfo where
  K8sVersion : String
  AppStatus : String
  ClusterID : String
  InstanceID : String
  ChannelID : String
  ChannelName : String
  ChannelSequence : Int
  K8sDistribution : String
  AdditionalMetrics : GoMap
  deriving DecidableEq, Repr

/-- Go `GetHeartbeatInfoHeaders(heartbeatInfo)`; `none` is the `nil` pointer. -/
def GetHeartbeatInfoHeaders (heartbeatInfo : Option HeartbeatInfo) : GoMap :=
  let headers : GoMap := []
  match heartbeatInfo with
  | none => headers
  | some heartbeatInfo =>
    let headers := mapSet headers "X-Replicated-K8sVersion" heartbeatInfo.K8sVersion
    let headers := mapSet headers "X-Replicated-AppStatus" heartbeatInfo.AppStatus
    let headers := mapSet headers "X-Replicated-ClusterID" heartbeatInfo.ClusterID
    let headers := mapSet headers "X-Replicated-InstanceID" heartbeatInfo.InstanceID
    let headers :=
      if heartbeatInfo.ChannelID != "" then
        mapSet headers "X-Replicated-DownstreamChannelID" heartbeatInfo.ChannelID
      else if heartbeatInfo.ChannelName != "" then
        mapSet headers "X-Replicated-DownstreamChannelName" heartbeatInfo.ChannelName
      else headers
    let headers :=
      mapSet headers "X-Replicated-DownstreamChannelSequence"
        (FormatInt heartbeatInfo.ChannelSequence)
    let headers :=
      if heartbeatInfo.K8sDistribution != "" then
        mapSet headers "X-Replicated-K8sDistribution" heartbeatInfo.K8sDistribution
      else headers
    headers

/-! ## Specification-side notions for the eligibility check -/

/-- An owner reference qualifies when it names a `ReplicaSet` of the API version
`apps/v1`. -/
def qualifies (owner : OwnerReference) : Bool :=
  owner.APIVersion == "apps/v1" && owner.Kind == "ReplicaSet"

/-- The revision annotation that an owner contributes: the value found on its
replica-set, when the owner qualifies, its replica-set is fetched and the replica-set
carries the annotation. -/
def contribution (clientset : Clientset) (ns : String) (owner : OwnerReference) :
    Option String :=
  if qualifies owner then
    match clientset.ReplicaSetsGet ns owner.Name with
    | .ok replicaSet => mapGet replicaSet.Annotations revisionAnnotationKey
    | .error _ => none
  else none

/-- The integer an annotation value stands for (0 for a value that does not parse). -/
def parsedValue (v : String) : Int :=
  match Atoi v with
  | .ok n => n
  | .error _ => 0

/-- The effective revision of a pod as the specification words it: the parsed revision
annotation of the last owner, in list order, that contributes one, and 0 when no owner
contributes. -/
def effectiveRevision (clientset : Clientset) (ns : String) (owners : List OwnerReference) :
    Int :=
  match (owners.filterMap (contribution clientset ns)).getLast? with
  | none => 0
  | some v => parsedValue v

/-- The revision of an annotated object as the specification words it: the parsed
revision annotation, and 0 when the annotation is absent. -/
def revisionOf (annotations : GoMap) : Int :=
  match mapGet annotations revisionAnnotationKey with
  | none => 0
  | some v => parsedValue v

/-- The revision annotation, when present, parses. -/
def annotationParses (annotations : GoMap) : Prop :=
  ∀ v, mapGet annotations revisionAnnotationKey = some v → ∃ n, Atoi v = .ok n

/-- Every qualifying owner's replica-set is fetched and its revision annotation, when
present, parses. -/
def ownersReadable (clientset : Clientset) (ns : String) (owners : List OwnerReference) :
    Prop :=
  ∀ owner ∈ owners, qualifies owner = true →
    ∃ replicaSet, clientset.ReplicaSetsGet ns owner.Name = .ok replicaSet ∧
      annotationParses replicaSet.Annotations

/-- An owner makes the loop fail: it qualifies, and either the fetch of its replica-set
fails or the replica-set carries a revision annotation that does not parse. -/
def ownerFails (clientset : Clientset) (ns : String) (owner : OwnerReference) : Prop :=
  qualifies owner = true ∧
    ((∃ err, clientset.ReplicaSetsGet ns owner.Name = .error err) ∨
      ∃ replicaSet v err, clientset.ReplicaSetsGet ns owner.Name = .ok replicaSet ∧
        mapGet replicaSet.Annotations revisionAnnotationKey = some v ∧ Atoi v = .error err)

/-- The guards of `canReport` are off: no airgap, and not a dev environment running
with a license that is not a dev license. -/
def guardsOff {License : Type} (env : Env License) (license : Option License) : Prop :=
  env.IsAirgap = false ∧ (env.IsDevEnv && !env.IsDevLicense license) = false

/-! ## Fixtures -/

/-- The objects held by a cluster, each under its namespace and name. -/
structure Cluster where
  deployments : List ((String × String) × Deployment)
  pods : List ((String × String) × Pod)
  replicaSets : List ((String × String) × ReplicaSet)

/-- A client over a fixed set of objects, after `fake.NewSimpleClientset`: `Get` finds
the object stored under the namespace and name, or fails. -/
def NewSimpleClientset (c : Cluster) : Clientset where
  DeploymentsGet := fun ns name =>
    match c.deployments.lookup (ns, name) with
    | some d => .ok d
    | none => .error (.api ("deployment not found: " ++ name))
  PodsGet := fun ns name =>
    match c.pods.lookup (ns, name) with
    | some p => .ok p
    | none => .error (.api ("pod not found: " ++ name))
  ReplicaSetsGet := fun ns name =>
    match c.replicaSets.lookup (ns, name) with
    | some r => .ok r
    | none => .error (.api ("replicaset not found: " ++ name))

/-- A deployment named `replicated` in `test-namespace` with the given revision
annotation (`none`: no annotation). -/
def testDeployment (revision : Option String) : (String × String) × Deployment :=
  (("test-namespace", "replicated"),
    { Annotations := match revision with
        | none => []
        | some r => [(revisionAnnotationKey, r)] })

/-- A replica-set in `test-namespace` with the given revision annotation. -/
def testReplicaSet (name : String) (revision : Option String) :
    (String × String) × ReplicaSet :=
  (("test-namespace", name),
    { Name := name
      Annotations := match revision with
        | none => []
        | some r => [(revisionAnnotationKey, r)] })

/-- A pod in `test-namespace` with the given owner references. -/
def testPod (name : String) (owners : List OwnerReference) : (String × String) × Pod :=
  (("test-namespace", name), { OwnerReferences := owners })

/-- An owner reference to the replica-set `name`. -/
def replicaSetOwner (name : String) : OwnerReference :=
  { APIVersion := "apps/v1", Kind := "ReplicaSet", Name := name }

/-- A process outside airgap and dev environments, running in the pod `test-pod`. -/
def testEnv : Env Unit where
  IsAirgap := false
  IsDevEnv := false
  IsDevLicense := fun _ => false
  GetReplicatedDeploymentName := "replicated"
  Getenv := fun name => if name = "REPLICATED_POD_NAME" then "test-pod" else ""

/-- The first test case: deployment revision 1, the pod's replica-set at revision 1. -/
def matchingCluster : Cluster where
  deployments := [testDeployment (some "1")]
  pods := [testPod "test-pod" [replicaSetOwner "test-replicaset"]]
  replicaSets := [testReplicaSet "test-replicaset" (some "1")]

/-- The second test case: deployment revision 2, the pod's replica-set at revision 1. -/
def staleCluster : Cluster where
  deployments := [testDeployment (some "2")]
  pods := [testPod "test-pod" [replicaSetOwner "test-replicaset"]]
  replicaSets := [testReplicaSet "test-replicaset" (some "1")]

/-- A deployment without revision annotation and a pod without owner references. -/
def bareCluster : Cluster where
  deployments := [testDeployment none]
  pods := [testPod "test-pod" []]
  replicaSets := []

/-- A cluster that holds no object at all. -/
def emptyCluster : Cluster where
  deployments := []
  pods := []
  replicaSets := []

/-- An airgapped process. -/
def airgapEnv : Env Unit where
  IsAirgap := true
  IsDevEnv := false
  IsDevLicense := fun _ => false
  GetReplicatedDeploymentName := "replicated"
  Getenv := fun name => if name = "REPLICATED_POD_NAME" then "test-pod" else ""

/-- A process in a dev environment; the license `true` is a dev license, the license
`false` and the nil license are not. -/
def devEnv : Env Bool where
  IsAirgap := false
  IsDevEnv := true
  IsDevLicense := fun license => license = some true
  GetReplicatedDeploymentName := "replicated"
  Getenv := fun name => if name = "REPLICATED_POD_NAME" then "test-pod" else ""

/-- The pod's replica-set is gone: the deployment and the pod exist, the owner does
not. -/
def orphanCluster : Cluster where
  deployments := [testDeployment (some "1")]
  pods := [testPod "test-pod" [replicaSetOwner "test-replicaset"]]
  replicaSets := []

/-- Negative revisions: deployment and owning replica-set both annotated `-1`. -/
def negativeCluster : Cluster where
  deployments := [testDeployment (some "-1")]
  pods := [testPod "test-pod" [replicaSetOwner "test-replicaset"]]
  replicaSets := [testReplicaSet "test-replicaset" (some "-1")]

/-- The owning replica-set carries a revision annotation that is not a number. -/
def garbledCluster : Cluster where
  deployments := [testDeployment (some "1")]
  pods := [testPod "test-pod" [replicaSetOwner "test-replicaset"]]
  replicaSets := [testReplicaSet "test-replicaset" (some "abc")]

/-- Four owner references: a `Deployment` owner, a replica-set owner at revision 3, a
replica-set owner without annotation, and a `ReplicaSet` of another API version. -/
def mixedOwners : List OwnerReference :=
  [{ APIVersion := "apps/v1", Kind := "Deployment", Name := "some-deployment" },
    replicaSetOwner "rs-annotated",
    replicaSetOwner "rs-bare",
    { APIVersion := "extensions/v1beta1", Kind := "ReplicaSet", Name := "rs-legacy" }]

/-- A cluster for `mixedOwners`; only the two `apps/v1` replica-sets exist. -/
def mixedCluster : Cluster where
  deployments := [testDeployment (some "3")]
  pods := [testPod "test-pod" mixedOwners]
  replicaSets := [testReplicaSet "rs-annotated" (some "3"), testReplicaSet "rs-bare" none]

/-- The heartbeat info of the test case "additional metrics": every field is zero but
the additional metrics. -/
def additionalMetricsInfo : HeartbeatInfo where
  K8sVersion := ""
  AppStatus := ""
  ClusterID := ""
  InstanceID := ""
  ChannelID := ""
  ChannelName := ""
  ChannelSequence := 0
  K8sDistribution := ""
  AdditionalMetrics :=
    [("X-Replicated-Test", "bar"), ("X-Replicated-TestAdditional", "baz")]

/-! ## HTTP request headers -/

/-- Go `validHeaderFieldByte(c)` of `net/textproto`: the token characters of RFC 7230,
that is the ASCII letters and digits and the fifteen marks with the codes listed. -/
def validHeaderFieldByte (c : Char) : Bool :=
  ('a' ≤ c ∧ c ≤ 'z') ∨ ('A' ≤ c ∧ c ≤ 'Z') ∨ ('0' ≤ c ∧ c ≤ '9') ∨
    c.toNat ∈ [33, 35, 36, 37, 38, 39, 42, 43, 45, 46, 94, 95, 96, 124, 126]

/-- The rewriting loop of `canonicalMIMEHeaderKey`: the first letter and every letter
after a `-` in upper case, every other letter in lower case; `upper` says whether the
next character starts a word. -/
def canonicalize : Bool → List Char → List Char
  | _, [] => []
  | upper, c :: cs =>
    let c' :=
      if upper = true ∧ 'a' ≤ c ∧ c ≤ 'z' then Char.ofNat (c.toNat - 32)
      else if upper = false ∧ 'A' ≤ c ∧ c ≤ 'Z' then Char.ofNat (c.toNat + 32)
      else c
    c' :: canonicalize (c' == '-') cs

/-- Go `textproto.CanonicalMIMEHeaderKey(s)`: a key that holds a character that is not
a token character (a space, a non-ASCII character) is returned unchanged, every other
key is rewritten to its canonical form. -/
def CanonicalMIMEHeaderKey (s : String) : String :=
  if s.toList.all validHeaderFieldByte then String.mk (canonicalize true s.toList) else s

/-- Go `http.Header`, a `map[string][]string`. The map is not nil, as in every request
made by `http.NewRequest` (`Set` on a nil map would panic). -/
abbrev Header := List (String × List String)

/-- Go `h[k]` on an `http.Header`: the values stored under the very key `k`, the empty
slice when there is none. -/
def headerLookup (h : Header) (k : String) : List String := (List.lookup k h).getD []

/-- Go `h.Set(key, value)`: `h[CanonicalMIMEHeaderKey(key)] = []string{value}`. -/
def headerSet (h : Header) (key value : String) : Header :=
  (CanonicalMIMEHeaderKey key, [value]) ::
    h.filter (fun e => e.1 != CanonicalMIMEHeaderKey key)

/-- Go `h.Values(key)`: all values of the header named `key`, looked up under the
canonical form of `key`. -/
def headerValues (h : Header) (key : String) : List String :=
  headerLookup h (CanonicalMIMEHeaderKey key)

/-- Go `h.Get(key)`: the first value of the header named `key`, the empty string when
there is none. -/
def headerGet (h : Header) (key : String) : String :=
  match headerLookup h (CanonicalMIMEHeaderKey key) with
  | [] => ""
  | v :: _ => v

/-- The part of `http.Request` that `InjectHeartbeatInfoHeaders` touches. -/
structure Request where
  Header : Header
  deriving DecidableEq, Repr

/-- The loop `for key, value := range headers { req.Header.Set(key, value) }`, visiting
the entries in the order in which `entries` lists them. Go leaves the order of a `range`
over a map open, so the loop of one call may visit any reordering of the map. -/
def setHeaders (req : Request) (entries : List (String × String)) : Request :=
  entries.foldl (fun r e => { r with Header := headerSet r.Header e.1 e.2 }) req

/-- Go `InjectHeartbeatInfoHeaders(req, heartbeatInfo)`, the map being visited in the
order of its list. -/
def InjectHeartbeatInfoHeaders (req : Request) (heartbeatInfo : Option HeartbeatInfo) :
    Request :=
  let headers := GetHeartbeatInfoHeaders heartbeatInfo
  setHeaders req headers

/-- The request of the test cases: one header `X-Replicated-Test` with value `foo`. -/
def testRequest : Request where
  Header := [("X-Replicated-Test", ["foo"])]

end Heartbeat

namespace MockStore

open Heartbeat

/-! ## JSON text, as `encoding/json` writes and reads it

A `[]byte` payload is modelled by the text it holds in UTF-8 (a `String`), a Go `string`
of the mock data by a `GoString`, which can hold bytes that are not valid UTF-8, a Go
`int` by an `Int` (64 bits, see `int64Range`), and a slice by an `Option (List _)` whose
`none` is the nil slice. -/

/-- A piece of a Go `string`, as `utf8.DecodeRune` cuts the bytes of the string from
left to right: a character in its UTF-8 encoding, or one byte that does not start a
valid encoding (for which `DecodeRune` answers `RuneError` with width 1). -/
inductive GoChar where
  | rune (c : Char)
  | invalid (b : Nat)
  deriving DecidableEq, Repr

/-- A Go `string`: the sequence of pieces into which `utf8.DecodeRune` cuts its bytes.
Every Go string is such a sequence, and two Go strings are equal when their sequences
are. A string that is valid UTF-8 has only `rune` pieces, and every sequence of `rune`
pieces is a Go string; a sequence with `invalid` pieces is one when the bytes are cut
that way, as is the one byte `0xff`, at which no encoding starts. -/
abbrev GoString := List GoChar

/-- The Go string with the text of `s`, which is valid UTF-8. -/
def goString (s : String) : GoString := s.toList.map GoChar.rune

/-- The Unicode replacement character U+FFFD. -/
def replacementChar : Char := Char.ofNat 65533

/-- The character that `encoding/json` makes of a piece of a string: the character
itself, and U+FFFD for a byte that is not valid UTF-8. -/
def coerceChar : GoChar → Char
  | .rune c => c
  | .invalid _ => replacementChar

/-- Go `strings.ToValidUTF8(s, "\uFFFD")` piece by piece, which is what a string goes
through when `json.Marshal` writes it and `json.Unmarshal` reads it back: every invalid
byte becomes U+FFFD. -/
def toValidUTF8 (s : GoString) : GoString := s.map (fun g => GoChar.rune (coerceChar g))

/-- The double quote. -/
def quote : Char := Char.ofNat 34

/-- The backslash. -/
def backslash : Char := Char.ofNat 92

/-- The opening brace. -/
def lbrace : Char := Char.ofNat 123

/-- The closing brace. -/
def rbrace : Char := Char.ofNat 125

/-- The lower-case hexadecimal digit of `n < 16`. -/
def hexChar (n : Nat) : Char :=
  if n < 10 then Char.ofNat (48 + n) else Char.ofNat (87 + n)

/-- The value of a hexadecimal digit, in either case. -/
def hexVal (c : Char) : Option Nat :=
  if 48 ≤ c.toNat ∧ c.toNat ≤ 57 then some (c.toNat - 48)
  else if 97 ≤ c.toNat ∧ c.toNat ≤ 102 then some (c.toNat - 87)
  else if 65 ≤ c.toNat ∧ c.toNat ≤ 70 then some (c.toNat - 55)
  else none

/-- The value of four hexadecimal digits (`getu4`). -/
def hex4 (a b c d : Char) : Option Nat :=
  match hexVal a, hexVal b, hexVal c, hexVal d with
  | some x, some y, some z, some w => some (((x * 16 + y) * 16 + z) * 16 + w)
  | _, _, _, _ => none

/-- How `json.Marshal` writes one character of a string (HTML escaping on): the quote
and the backslash behind a backslash; newline, carriage return and tab as `\n`, `\r`,
`\t`; the other control characters and `<`, `>`, `&` as `\u00XX`; U+2028 and U+2029 as
`\u202X`; every other character as it is. (Go 1.22 and later write backspace and form
feed as `\b` and `\f`; both forms read back as the same character.) -/
def encodeChar (c : Char) : List Char :=
  if c = quote ∨ c = backslash then [backslash, c]
  else if c.toNat = 10 then [backslash, 'n']
  else if c.toNat = 13 then [backslash, 'r']
  else if c.toNat = 9 then [backslash, 't']
  else if c.toNat < 32 ∨ c.toNat = 60 ∨ c.toNat = 62 ∨ c.toNat = 38 then
    [backslash, 'u', '0', '0', hexChar (c.toNat / 16), hexChar (c.toNat % 16)]
  else if c.toNat = 8232 ∨ c.toNat = 8233 then
    [backslash, 'u', '2', '0', '2', hexChar (c.toNat % 16)]
  else [c]

/-- How `json.Marshal` writes one piece of a string: a character as `encodeChar` has it,
a byte that is not valid UTF-8 as the escape `\ufffd`. -/
def encodeGoChar : GoChar → List Char
  | .rune c => encodeChar c
  | .invalid _ => [backslash, 'u', 'f', 'f', 'f', 'd']

/-- The pieces of a string between the quotes, as `json.Marshal` writes them. -/
def encodeChars : GoString → List Char
  | [] => []
  | g :: gs => encodeGoChar g ++ encodeChars gs

/-- A JSON string literal. -/
def encodeString (s : GoString) : List Char := quote :: (encodeChars s ++ [quote])

/-- A JSON number for a Go `int`. -/
def encodeInt (n : Int) : List Char := (FormatInt n).toList

/-- A JSON boolean. -/
def encodeBool (b : Bool) : List Char := if b then "true".toList else "false".toList

/-- The members of a JSON object, each a name and the text of its value, joined by
commas: `"name":value,"name":value`. The names are the JSON names of struct fields,
which need no escape. -/
def joinMembers : List (String × List Char) → List Char
  | [] => []
  | [m] => quote :: (m.1.toList ++ quote :: ':' :: m.2)
  | m :: ms => quote :: (m.1.toList ++ quote :: ':' :: (m.2 ++ ',' :: joinMembers ms))

/-- A JSON object with the given members. -/
def encodeObject (members : List (String × List Char)) : List Char :=
  lbrace :: (joinMembers members ++ [rbrace])

/-- The elements of a JSON array joined by commas. -/
def joinElems : List (List Char) → List Char
  | [] => []
  | [x] => x
  | x :: xs => x ++ ',' :: joinElems xs

/-- A JSON array with the given elements. -/
def encodeArray (elems : List (List Char)) : List Char := '[' :: (joinElems elems ++ [']'])

/-- JSON white space is skipped: space, tab, newline, carriage return. -/
def skipWS : List Char → List Char
  | [] => []
  | c :: cs =>
    if c.toNat = 32 ∨ c.toNat = 9 ∨ c.toNat = 10 ∨ c.toNat = 13 then skipWS cs else c :: cs

/-- The input with the literal `lit` taken off its front, when it starts with it. -/
def stripLiteral : List Char → List Char → Option (List Char)
  | [], input => some input
  | _ :: _, [] => none
  | l :: ls, c :: cs => if l = c then stripLiteral ls cs else none

/-- The character a one-letter escape stands for. -/
def unescape (e : Char) : Option Char :=
  if e = quote then some quote
  else if e = backslash then some backslash
  else if e = '/' then some '/'
  else if e = 'b' then some (Char.ofNat 8)
  else if e = 'f' then some (Char.ofNat 12)
  else if e = 'n' then some (Char.ofNat 10)
  else if e = 'r' then some (Char.ofNat 13)
  else if e = 't' then some (Char.ofNat 9)
  else none

/-- The character of a `\u` escape with value `rr` that is followed by `rest`, and what
is left of `rest`: a high surrogate directly followed by the `\u` escape of a low
surrogate gives the character of the pair and takes that escape as well, any other
surrogate gives U+FFFD. -/
def decodeEscape (rr : Nat) (rest : List Char) : Char × List Char :=
  if 55296 ≤ rr ∧ rr < 57344 then
    match rest with
    | b :: u :: a1 :: b1 :: c1 :: d1 :: rest1 =>
      if b = backslash ∧ u = 'u' then
        match hex4 a1 b1 c1 d1 with
        | some rr1 =>
          if rr < 56320 ∧ 56320 ≤ rr1 ∧ rr1 < 57344 then
            (Char.ofNat ((rr - 55296) * 1024 + (rr1 - 56320) + 65536), rest1)
          else (replacementChar, rest)
        | none => (replacementChar, rest)
      else (replacementChar, rest)
    | _ => (replacementChar, rest)
  else (Char.ofNat rr, rest)

/-- Reads a string literal from behind its opening quote up to the closing quote:
`fuel` bounds the number of characters and escapes read, `acc` holds the characters
read so far, last first. The result is the string and the input left behind the
closing quote; `none` when the literal is not well formed (no closing quote, a control
character, an escape that JSON does not have). -/
def parseStringBody : Nat → List Char → List Char → Option (List Char × List Char)
  | 0, _, _ => none
  | _ + 1, [], _ => none
  | fuel + 1, c :: cs, acc =>
    if c = quote then some (acc.reverse, cs)
    else if c = backslash then
      match cs with
      | [] => none
      | e :: cs1 =>
        if e = 'u' then
          match cs1 with
          | a :: b :: c2 :: d :: rest =>
            match hex4 a b c2 d with
            | none => none
            | some rr =>
              parseStringBody fuel (decodeEscape rr rest).2 ((decodeEscape rr rest).1 :: acc)
          | _ => none
        else
          match unescape e with
          | some ch => parseStringBody fuel cs1 (ch :: acc)
          | none => none
    else if c.toNat < 32 then none
    else parseStringBody fuel cs (c :: acc)

/-- The longest front of the input made of decimal digits, and the rest. -/
def takeDigits : List Char → List Char × List Char
  | [] => ([], [])
  | c :: cs =>
    if '0' ≤ c ∧ c ≤ '9' then ((c :: (takeDigits cs).1), (takeDigits cs).2) else ([], c :: cs)

/-- The integer part of a JSON number: `0`, or a digit from 1 to 9 followed by digits. -/
def scanIntPart : List Char → Option (List Char × List Char)
  | [] => none
  | c :: cs =>
    if c = '0' then some ([c], cs)
    else if '1' ≤ c ∧ c ≤ '9' then some (c :: (takeDigits cs).1, (takeDigits cs).2)
    else none

/-- The optional fraction of a JSON number: a dot followed by one or more digits. -/
def scanFraction : List Char → Option (List Char × List Char)
  | [] => some ([], [])
  | c :: cs =>
    if c = '.' then
      if (takeDigits cs).1 = [] then none else some (c :: (takeDigits cs).1, (takeDigits cs).2)
    else some ([], c :: cs)

/-- The optional exponent of a JSON number: `e` or `E`, an optional sign, one or more
digits. -/
def scanExponent : List Char → Option (List Char × List Char)
  | [] => some ([], [])
  | c :: cs =>
    if c = 'e' ∨ c = 'E' then
      match cs with
      | [] => none
      | s :: cs1 =>
        if s = '+' ∨ s = '-' then
          if (takeDigits cs1).1 = [] then none
          else some (c :: s :: (takeDigits cs1).1, (takeDigits cs1).2)
        else if (takeDigits cs).1 = [] then none
        else some (c :: (takeDigits cs).1, (takeDigits cs).2)
    else some ([], c :: cs)

/-- Reads a JSON number literal: an optional minus, the integer part, an optional
fraction, an optional exponent. The result is the literal and the rest of the input. -/
def scanNumber (input : List Char) : Option (List Char × List Char) :=
  let signed : List Char × List Char :=
    match input with
    | [] => ([], [])
    | c :: cs => if c = '-' then ([c], cs) else ([], c :: cs)
  match scanIntPart signed.2 with
  | none => none
  | some (ip, r1) =>
    match scanFraction r1 with
    | none => none
    | some (fp, r2) =>
      match scanExponent r2 with
      | none => none
      | some (ep, r3) => some (signed.1 ++ ip ++ fp ++ ep, r3)

/-- Decodes a JSON value into a Go `string` that holds `cur`: a string literal gives
its text, which is valid UTF-8; `null` leaves the value as it is, anything else is an
error. -/
def decodeString (input : List Char) (cur : GoString) : Option (GoString × List Char) :=
  match input with
  | [] => none
  | c :: cs =>
    if c = quote then
      match parseStringBody (cs.length + 1) cs [] with
      | some (s, rest) => some (s.map GoChar.rune, rest)
      | none => none
    else
      match stripLiteral "null".toList input with
      | some rest => some (cur, rest)
      | none => none

/-- Decodes a JSON value into a Go `int` that holds `cur`: a number literal that
`strconv.ParseInt(lit, 10, 64)` accepts gives its value, `null` leaves the value as it
is, anything else (a fraction, an exponent, a value out of range, another kind of
value) is an error. -/
def decodeInt (input : List Char) (cur : Int) : Option (Int × List Char) :=
  match stripLiteral "null".toList input with
  | some rest => some (cur, rest)
  | none =>
    match scanNumber input with
    | none => none
    | some (lit, rest) =>
      match Atoi (String.mk lit) with
      | .ok n => some (n, rest)
      | .error _ => none

/-- Decodes a JSON value into a Go `bool` that holds `cur`. -/
def decodeBool (input : List Char) (cur : Bool) : Option (Bool × List Char) :=
  match stripLiteral "true".toList input with
  | some rest => some (true, rest)
  | none =>
    match stripLiteral "false".toList input with
    | some rest => some (false, rest)
    | none =>
      match stripLiteral "null".toList input with
      | some rest => some (cur, rest)
      | none => none

/-- The members of a JSON object read into a value `cur`, the input standing at the
opening quote of a member name: name, colon, value (handed with the name to `handler`),
then a comma and the next member, or the closing brace. `fuel` bounds the number of
members. -/
def decodeMembers {α : Type} (handler : List Char → List Char → α → Option (α × List Char)) :
    Nat → List Char → α → Option (α × List Char)
  | 0, _, _ => none
  | _ + 1, [], _ => none
  | fuel + 1, c :: cs, cur =>
    if c = quote then
      match parseStringBody (cs.length + 1) cs [] with
      | none => none
      | some (key, r1) =>
        match skipWS r1 with
        | [] => none
        | c2 :: r2 =>
          if c2 = ':' then
            match handler key (skipWS r2) cur with
            | none => none
            | some (cur1, r3) =>
              match skipWS r3 with
              | [] => none
              | c3 :: r4 =>
                if c3 = ',' then decodeMembers handler fuel (skipWS r4) cur1
                else if c3 = rbrace then some (cur1, r4)
                else none
          else none
    else none

/-- A JSON object read into `cur` from behind its opening brace. -/
def decodeObjectBody {α : Type}
    (handler : List Char → List Char → α → Option (α × List Char))
    (fuel : Nat) (input : List Char) (cur : α) : Option (α × List Char) :=
  match skipWS input with
  | [] => none
  | c :: cs => if c = rbrace then some (cur, cs) else decodeMembers handler fuel (c :: cs) cur

/-- The elements of a JSON array, the input standing at the first character of an
element: the element (read by `elem`, which is told its index), then a comma and the
next element, or the closing bracket. `acc` holds the elements read so far, last first;
`fuel` bounds the number of elements. -/
def decodeElems {β : Type} (elem : Nat → List Char → Option (β × List Char)) :
    Nat → List Char → List β → Option (List β × List Char)
  | 0, _, _ => none
  | fuel + 1, input, acc =>
    match elem acc.length input with
    | none => none
    | some (x, r) =>
      match skipWS r with
      | [] => none
      | c :: r1 =>
        if c = ',' then decodeElems elem fuel (skipWS r1) (x :: acc)
        else if c = ']' then some ((x :: acc).reverse, r1)
        else none

/-- A JSON array read from behind its opening bracket. -/
def decodeArrayBody {β : Type} (elem : Nat → List Char → Option (β × List Char))
    (fuel : Nat) (input : List Char) : Option (List β × List Char) :=
  match skipWS input with
  | [] => none
  | c :: cs => if c = ']' then some ([], cs) else decodeElems elem fuel (c :: cs) []

/-- The nesting depth that `encoding/json` accepts (`maxNestingDepth`). -/
def maxNestingDepth : Nat := 10000

/-- Reads over one JSON value of any kind, checking that it is well formed; the value of
an unknown member is skipped this way. `depth` is the number of objects and arrays
around the value; an object or array that would be nested deeper than
`maxNestingDepth` is an error. `fuel` bounds the number of members and elements and
the depth read. -/
def skipValue : Nat → Nat → List Char → Unit → Option (Unit × List Char)
  | 0, _, _, _ => none
  | _ + 1, _, [], _ => none
  | fuel + 1, depth, c :: cs, _ =>
    if c = quote then
      match parseStringBody (cs.length + 1) cs [] with
      | some (_, rest) => some ((), rest)
      | none => none
    else if c = lbrace then
      if maxNestingDepth < depth + 1 then none
      else decodeObjectBody (fun _ input u => skipValue fuel (depth + 1) input u) fuel cs ()
    else if c = '[' then
      if maxNestingDepth < depth + 1 then none
      else
        match decodeArrayBody (fun _ input => skipValue fuel (depth + 1) input ()) fuel cs with
        | some (_, rest) => some ((), rest)
        | none => none
    else
      match stripLiteral "true".toList (c :: cs) with
      | some rest => some ((), rest)
      | none =>
        match stripLiteral "false".toList (c :: cs) with
        | some rest => some ((), rest)
        | none =>
          match stripLiteral "null".toList (c :: cs) with
          | some rest => some ((), rest)
          | none =>
            match scanNumber (c :: cs) with
            | some (_, rest) => some ((), rest)
            | none => none

/-- The character that a character of a member name is folded to when names are
compared without regard to case (`bytes.EqualFold` against an ASCII name): an ASCII
capital letter, the long s U+017F and the Kelvin sign U+212A become the lower-case
letter. -/
def foldChar (c : Char) : Char :=
  if 65 ≤ c.toNat ∧ c.toNat ≤ 90 then Char.ofNat (c.toNat + 32)
  else if c.toNat = 383 then 's'
  else if c.toNat = 8490 then 'k'
  else c

/-- A member name of the input names the field with the JSON name `name`: equal up to
case. (No two fields of a struct here have names that are equal up to case, so the
preference `encoding/json` gives to an exact match does not matter.) -/
def namesField (key : List Char) (name : String) : Bool :=
  key.map foldChar == name.toList.map foldChar

/-! ## The mock data (`pkg/mock/mock.go`) -/

/-- Go `MockRelease`. -/
structure MockRelease where
  VersionLabel : GoString
  ChannelID : GoString
  ChannelName : GoString
  ChannelSequence : Int
  ReleaseSequence : Int
  IsRequired : Bool
  ReleaseNotes : GoString
  HelmReleaseName : GoString
  HelmReleaseRevision : Int
  HelmReleaseNamespace : GoString
  deriving DecidableEq, Repr

/-- Go `MockData`; `CurrentRelease` is a pointer (`none`: nil), the two sequences are
slices (`none`: nil). -/
structure MockData where
  CurrentRelease : Option MockRelease
  DeployedReleases : Option (List MockRelease)
  AvailableReleases : Option (List MockRelease)
  deriving DecidableEq, Repr

/-- The zero value of `MockRelease`. -/
def zeroRelease : MockRelease :=
  { VersionLabel := [], ChannelID := [], ChannelName := [], ChannelSequence := 0,
    ReleaseSequence := 0, IsRequired := false, ReleaseNotes := [], HelmReleaseName := [],
    HelmReleaseRevision := 0, HelmReleaseNamespace := [] }

/-- The zero value of `MockData`. -/
def zeroMockData : MockData :=
  { CurrentRelease := none, DeployedReleases := none, AvailableReleases := none }

/-- The members `json.Marshal` writes for a `MockRelease`, following the struct tags:
the seven plain fields in declaration order, then each of the three `omitempty` fields
that is not the zero value. -/
def releaseMembers (r : MockRelease) : List (String × List Char) :=
  [("versionLabel", encodeString r.VersionLabel),
    ("channelID", encodeString r.ChannelID),
    ("channelName", encodeString r.ChannelName),
    ("channelSequence", encodeInt r.ChannelSequence),
    ("releaseSequence", encodeInt r.ReleaseSequence),
    ("isRequired", encodeBool r.IsRequired),
    ("releaseNotes", encodeString r.ReleaseNotes)]
  ++ (if r.HelmReleaseName = [] then [] else
        [("helmReleaseName", encodeString r.HelmReleaseName)])
  ++ (if r.HelmReleaseRevision = 0 then [] else
        [("helmReleaseRevision", encodeInt r.HelmReleaseRevision)])
  ++ (if r.HelmReleaseNamespace = [] then [] else
        [("helmReleaseNamespace", encodeString r.HelmReleaseNamespace)])

/-- The JSON object of a `MockRelease`. -/
def encodeRelease (r : MockRelease) : List Char := encodeObject (releaseMembers r)

/-- The JSON value of a `*MockRelease`: `null` for nil. -/
def encodeReleasePtr : Option MockRelease → List Char
  | none => "null".toList
  | some r => encodeRelease r

/-- The JSON value of a `[]MockRelease`: `null` for the nil slice. -/
def encodeReleases : Option (List MockRelease) → List Char
  | none => "null".toList
  | some rs => encodeArray (rs.map encodeRelease)

/-- The JSON object of a `MockData`. -/
def encodeMockData (d : MockData) : List Char :=
  encodeObject
    [("currentRelease", encodeReleasePtr d.CurrentRelease),
      ("deployedReleases", encodeReleases d.DeployedReleases),
      ("availableReleases", encodeReleases d.AvailableReleases)]

/-- Go `json.Marshal(mockData)`; it has no error for this type. -/
def Marshal (mockData : MockData) : Except Error String :=
  .ok (String.mk (encodeMockData mockData))

/-- Decodes the value of the member `key` of a JSON object into the `MockRelease` that
holds `cur`: the member of a field is decoded into the field, any other member is read
over. `depth` is the nesting depth of the object. -/
def releaseHandler (fuel depth : Nat) (key : List Char) (input : List Char)
    (cur : MockRelease) : Option (MockRelease × List Char) :=
  if namesField key "versionLabel" then
    (decodeString input cur.VersionLabel).map (fun p => ({ cur with VersionLabel := p.1 }, p.2))
  else if namesField key "channelID" then
    (decodeString input cur.ChannelID).map (fun p => ({ cur with ChannelID := p.1 }, p.2))
  else if namesField key "channelName" then
    (decodeString input cur.ChannelName).map (fun p => ({ cur with ChannelName := p.1 }, p.2))
  else if namesField key "channelSequence" then
    (decodeInt input cur.ChannelSequence).map
      (fun p => ({ cur with ChannelSequence := p.1 }, p.2))
  else if namesField key "releaseSequence" then
    (decodeInt input cur.ReleaseSequence).map
      (fun p => ({ cur with ReleaseSequence := p.1 }, p.2))
  else if namesField key "isRequired" then
    (decodeBool input cur.IsRequired).map (fun p => ({ cur with IsRequired := p.1 }, p.2))
  else if namesField key "releaseNotes" then
    (decodeString input cur.ReleaseNotes).map (fun p => ({ cur with ReleaseNotes := p.1 }, p.2))
  else if namesField key "helmReleaseName" then
    (decodeString input cur.HelmReleaseName).map
      (fun p => ({ cur with HelmReleaseName := p.1 }, p.2))
  else if namesField key "helmReleaseRevision" then
    (decodeInt input cur.HelmReleaseRevision).map
      (fun p => ({ cur with HelmReleaseRevision := p.1 }, p.2))
  else if namesField key "helmReleaseNamespace" then
    (decodeString input cur.HelmReleaseNamespace).map
      (fun p => ({ cur with HelmReleaseNamespace := p.1 }, p.2))
  else (skipValue fuel depth input ()).map (fun p => (cur, p.2))

/-- Decodes a JSON value into a `MockRelease` that holds `cur`: an object is decoded
member by member, `null` leaves the value as it is, anything else is an error. `depth`
is the nesting depth of the value when it is an object. -/
def decodeRelease (fuel depth : Nat) (input : List Char) (cur : MockRelease) :
    Option (MockRelease × List Char) :=
  match input with
  | [] => none
  | c :: cs =>
    if c = lbrace then decodeObjectBody (releaseHandler fuel depth) fuel cs cur
    else
      match stripLiteral "null".toList input with
      | some rest => some (cur, rest)
      | none => none

/-- Decodes a JSON value into a `*MockRelease` that holds `cur`: `null` makes the
pointer nil, an object is decoded into the release pointed to (a fresh zero value when
the pointer is nil). -/
def decodeReleasePtr (fuel : Nat) (input : List Char) (cur : Option MockRelease) :
    Option (Option MockRelease × List Char) :=
  match input with
  | [] => none
  | c :: cs =>
    if c = lbrace then
      (decodeObjectBody (releaseHandler fuel 2) fuel cs (cur.getD zeroRelease)).map
        (fun p => (some p.1, p.2))
    else
      match stripLiteral "null".toList input with
      | some rest => some (none, rest)
      | none => none

/-- Decodes a JSON value into a `[]MockRelease` that holds `cur`: `null` makes the slice
nil, an array gives a slice of its elements, the element of index `i` being decoded into
the element the slice had at `i`, and into a zero value when it had none. (That is what
Go does for a member that occurs once. When a member occurs again and again with
arrays of different lengths, Go decodes an element beyond the length into what the
spare capacity of the slice still holds, which depends on how the runtime grew the
slice; that is not modelled.) -/
def decodeReleases (fuel : Nat) (input : List Char) (cur : Option (List MockRelease)) :
    Option (Option (List MockRelease) × List Char) :=
  match input with
  | [] => none
  | c :: cs =>
    if c = '[' then
      (decodeArrayBody
        (fun i elemInput => decodeRelease fuel 3 elemInput ((cur.getD []).getD i zeroRelease))
        fuel cs).map (fun p => (some p.1, p.2))
    else
      match stripLiteral "null".toList input with
      | some rest => some (none, rest)
      | none => none

/-- Decodes the value of the member `key` of a JSON object into the `MockData` that
holds `cur`. -/
def mockDataHandler (fuel : Nat) (key : List Char) (input : List Char) (cur : MockData) :
    Option (MockData × List Char) :=
  if namesField key "currentRelease" then
    (decodeReleasePtr fuel input cur.CurrentRelease).map
      (fun p => ({ cur with CurrentRelease := p.1 }, p.2))
  else if namesField key "deployedReleases" then
    (decodeReleases fuel input cur.DeployedReleases).map
      (fun p => ({ cur with DeployedReleases := p.1 }, p.2))
  else if namesField key "availableReleases" then
    (decodeReleases fuel input cur.AvailableReleases).map
      (fun p => ({ cur with AvailableReleases := p.1 }, p.2))
  else (skipValue fuel 1 input ()).map (fun p => (cur, p.2))

/-- Decodes a JSON value into a `MockData` that holds `cur`. -/
def decodeMockData (fuel : Nat) (input : List Char) (cur : MockData) :
    Option (MockData × List Char) :=
  match input with
  | [] => none
  | c :: cs =>
    if c = lbrace then decodeObjectBody (mockDataHandler fuel) fuel cs cur
    else
      match stripLiteral "null".toList input with
      | some rest => some (cur, rest)
      | none => none

/-- Go `json.Unmarshal(b, &mockData)` for a `mockData` that holds the zero value: the
payload must be one JSON value, with white space around it at most, that decodes into a
`MockData`. The mock data is an object of depth 1, its current release an object of
depth 2, its sequences arrays of depth 2 with objects of depth 3. The length of the
payload bounds every loop of the decoder. -/
def Unmarshal (b : String) : Except Error MockData :=
  match decodeMockData (b.toList.length + 1) (skipWS b.toList) zeroMockData with
  | none => .error (.json "cannot unmarshal into MockData")
  | some (mockData, rest) =>
    if skipWS rest = [] then .ok mockData
    else .error (.json "invalid character after top-level value")

/-! ## The secret store -/

/-- Go `replicatedSecretName`. -/
def replicatedSecretName : String := "replicated"

/-- Go `replicatedMockDataKey`. -/
def replicatedMockDataKey : String := "REPLICATED_MOCK_DATA"

/-- The fields of `corev1.Secret` that the mock store touches; `Data` is a
`map[string][]byte`, `none` being the nil map. -/
structure Secret where
  Name : String
  Data : Option GoMap
  deriving DecidableEq, Repr

/-- The state behind `clientset.CoreV1().Secrets(ns)`: the secrets of the cluster, each
with its namespace; an error with which the API server answers every `Update`, when
there is one; and the `Update` calls made so far, in call order. -/
structure SecretsClient where
  secrets : List (String × Secret)
  updateError : Option Error
  updateCalls : List (String × Secret)
  deriving DecidableEq, Repr

/-- The entry of the store is the secret `name` of the namespace `ns`. -/
def isSecret (ns name : String) (e : String × Secret) : Bool :=
  e.1 == ns && e.2.Name == name

/-- `Secrets(ns).Get(name)`: the secret of that name in the namespace, or an error. -/
def SecretsGet (c : SecretsClient) (ns name : String) : Except Error Secret :=
  match c.secrets.find? (isSecret ns name) with
  | some e => .ok e.2
  | none => .error (.api ("secret not found: " ++ name))

/-- The store with the secret of the name of `secret` in the namespace `ns` replaced by
`secret`. -/
def replaceSecret (ns : String) (secret : Secret) :
    List (String × Secret) → List (String × Secret)
  | [] => []
  | e :: es =>
    if isSecret ns secret.Name e then (ns, secret) :: replaceSecret ns secret es
    else e :: replaceSecret ns secret es

/-- `Secrets(ns).Update(secret)`: the call is recorded; it fails when the API server
rejects updates or the namespace holds no secret of that name, and otherwise stores the
secret in place of the old one. -/
def SecretsUpdate (c : SecretsClient) (ns : String) (secret : Secret) :
    Except Error Secret × SecretsClient :=
  let called : SecretsClient := { c with updateCalls := c.updateCalls ++ [(ns, secret)] }
  match c.updateError with
  | some err => (.error err, called)
  | none =>
    match c.secrets.find? (isSecret ns secret.Name) with
    | none => (.error (.api ("secret not found: " ++ secret.Name)), called)
    | some _ => (.ok secret, { called with secrets := replaceSecret ns secret c.secrets })

/-- Go `delete(m, k)`. -/
def mapDelete (m : GoMap) (k : String) : GoMap := m.filter (fun e => e.1 != k)

/-- Go `secret.Data[k]`: the payload under `k`, empty when the key is absent or the map
is nil. -/
def dataGet (data : Option GoMap) (k : String) : String :=
  match data with
  | none => ""
  | some m => (mapGet m k).getD ""

/-- Go `Mock`: the client and the namespace the store is bound to. The process-wide
lock makes the operations run one after the other; each operation is a function of the
state of the client. -/
structure Mock where
  clientset : SecretsClient
  ns : String
  deriving DecidableEq, Repr

/-- Go `(m *Mock) GetMockData()`. -/
def GetMockData (m : Mock) : Option MockData × Option Error :=
  match SecretsGet m.clientset m.ns replicatedSecretName with
  | .error err => (none, some (Wrap err "failed to get secret replicated-dev"))
  | .ok secret =>
    let b := dataGet secret.Data replicatedMockDataKey
    if b.toList.length = 0 then (none, none)
    else
      match Unmarshal b with
      | .error err => (none, some (Wrap err "failed to unmarshal mock data"))
      | .ok mockData => (some mockData, none)

/-- Go `(m *Mock) HasMocks()`. -/
def HasMocks (m : Mock) : Bool × Option Error :=
  match GetMockData m with
  | (_, some err) => (false, some (Wrap err "failed to get mock data"))
  | (none, none) => (false, none)
  | (some _, none) => (true, none)

/-- Go `(m *Mock) GetCurrentRelease()`. -/
def GetCurrentRelease (m : Mock) : Option MockRelease × Option Error :=
  match GetMockData m with
  | (_, some err) => (none, some (Wrap err "failed to get mock data"))
  | (none, none) => (none, none)
  | (some mockData, none) => (mockData.CurrentRelease, none)

/-- Go `(m *Mock) GetAvailableReleases()`. -/
def GetAvailableReleases (m : Mock) : Option (List MockRelease) × Option Error :=
  match GetMockData m with
  | (_, some err) => (none, some (Wrap err "failed to get mock data"))
  | (none, none) => (none, none)
  | (some mockData, none) => (mockData.AvailableReleases, none)

/-- Go `(m *Mock) GetAllReleases()`. -/
def GetAllReleases (m : Mock) : Option (List MockRelease) × Option Error :=
  match GetMockData m with
  | (_, some err) => (none, some (Wrap err "failed to get mock data"))
  | (none, none) => (none, none)
  | (some mockData, none) =>
    let releases : List MockRelease := []
    let releases := releases ++ mockData.DeployedReleases.getD []
    let releases := releases ++ mockData.AvailableReleases.getD []
    (some releases, none)

/-- Go `(m *Mock) SetMockData(mockData)`: the error, and the store with the state of the
client after the call. -/
def SetMockData (m : Mock) (mockData : MockData) : Option Error × Mock :=
  match Marshal mockData with
  | .error err => (some (Wrap err "failed to marshal mock data"), m)
  | .ok b =>
    match SecretsGet m.clientset m.ns replicatedSecretName with
    | .error err => (some (Wrap err "failed to get secret replicated-dev"), m)
    | .ok secret =>
      let secret : Secret :=
        if secret.Data = none then { secret with Data := some [] } else secret
      let secret : Secret :=
        { secret with Data := some (mapSet (secret.Data.getD []) replicatedMockDataKey b) }
      match SecretsUpdate m.clientset m.ns secret with
      | (.error err, clientset) =>
        (some (Wrap err "failed to update secret replicated-dev"), { m with clientset := clientset })
      | (.ok _, clientset) => (none, { m with clientset := clientset })

/-- Go `(m *Mock) DeleteMockData()`. -/
def DeleteMockData (m : Mock) : Option Error × Mock :=
  match SecretsGet m.clientset m.ns replicatedSecretName with
  | .error err => (some (Wrap err "failed to get secret replicated-dev"), m)
  | .ok secret =>
    let secret : Secret :=
      { secret with Data := secret.Data.map (fun data => mapDelete data replicatedMockDataKey) }
    match SecretsUpdate m.clientset m.ns secret with
    | (.error err, clientset) =>
      (some (Wrap err "failed to update secret replicated-dev"), { m with clientset := clientset })
    | (.ok _, clientset) => (none, { m with clientset := clientset })

/-! ## Specification-side notions for the mock store -/

/-- The entry of a `map[string][]byte` under `k`: `none` when the key is absent or the
map is nil. -/
def dataLookup (data : Option GoMap) (k : String) : Option String :=
  match data with
  | none => none
  | some m => mapGet m k

/-- The backing secret as `SetMockData` writes it: the secret read, with the payload
`b` under the mock-data key. -/
def secretWith (secret : Secret) (b : String) : Secret :=
  { secret with Data := some (mapSet (secret.Data.getD []) replicatedMockDataKey b) }

/-- The backing secret as `DeleteMockData` writes it: the secret read, without the
mock-data key. -/
def secretWithout (secret : Secret) : Secret :=
  { secret with Data := secret.Data.map (fun data => mapDelete data replicatedMockDataKey) }

/-- The state of the client after a successful `Update` with `secret`. -/
def updatedClient (c : SecretsClient) (ns : String) (secret : Secret) : SecretsClient :=
  { c with secrets := replaceSecret ns secret c.secrets,
           updateCalls := c.updateCalls ++ [(ns, secret)] }


/-- The input goes on with a comma, a closing brace or a closing bracket: what
`json.Marshal` writes behind a value that is a member or an element. -/
def delimited (tail : List Char) : Prop :=
  ∃ c t, tail = c :: t ∧ (c = ',' ∨ c = rbrace ∨ c = ']')

/-- The character is not JSON white space. -/
abbrev notWS (c : Char) : Prop := ¬ (c.toNat = 32 ∨ c.toNat = 9 ∨ c.toNat = 10 ∨ c.toNat = 13)

/-- The handler decodes the member `name` when its value is written as `text`, changing
the value decoded into by `f`: the name is written without escapes, the text starts
with a character that is not white space, and the handler reads exactly the text. -/
def handlesMember {α : Type} (handler : List Char → List Char → α → Option (α × List Char))
    (m : String × List Char × (α → α)) : Prop :=
  encodeChars (goString m.1) = m.1.toList ∧
    (∃ c t, m.2.1 = c :: t ∧ notWS c) ∧
    ∀ cur tail, delimited tail → handler m.1.toList (m.2.1 ++ tail) cur = some (m.2.2 cur, tail)

/-- The members `json.Marshal` writes for a release, each with the change that decoding
it makes to the release decoded into; a string comes back as valid UTF-8. -/
def releaseUpdates (r : MockRelease) :
    List (String × List Char × (MockRelease → MockRelease)) :=
  [("versionLabel", encodeString r.VersionLabel,
      fun c => { c with VersionLabel := toValidUTF8 r.VersionLabel }),
    ("channelID", encodeString r.ChannelID,
      fun c => { c with ChannelID := toValidUTF8 r.ChannelID }),
    ("channelName", encodeString r.ChannelName,
      fun c => { c with ChannelName := toValidUTF8 r.ChannelName }),
    ("channelSequence", encodeInt r.ChannelSequence,
      fun c => { c with ChannelSequence := r.ChannelSequence }),
    ("releaseSequence", encodeInt r.ReleaseSequence,
      fun c => { c with ReleaseSequence := r.ReleaseSequence }),
    ("isRequired", encodeBool r.IsRequired, fun c => { c with IsRequired := r.IsRequired }),
    ("releaseNotes", encodeString r.ReleaseNotes,
      fun c => { c with ReleaseNotes := toValidUTF8 r.ReleaseNotes })]
  ++ (if r.HelmReleaseName = [] then [] else
        [("helmReleaseName", encodeString r.HelmReleaseName,
          fun c => { c with HelmReleaseName := toValidUTF8 r.HelmReleaseName })])
  ++ (if r.HelmReleaseRevision = 0 then [] else
        [("helmReleaseRevision", encodeInt r.HelmReleaseRevision,
          fun c => { c with HelmReleaseRevision := r.HelmReleaseRevision })])
  ++ (if r.HelmReleaseNamespace = [] then [] else
        [("helmReleaseNamespace", encodeString r.HelmReleaseNamespace,
          fun c => { c with HelmReleaseNamespace := toValidUTF8 r.HelmReleaseNamespace })])

/-- The string is valid UTF-8: no piece of it is an invalid byte. -/
def validUTF8 (s : GoString) : Prop := ∀ g ∈ s, ∃ c, g = GoChar.rune c

/-- Every string of the release is valid UTF-8. -/
def validStrings (r : MockRelease) : Prop :=
  validUTF8 r.VersionLabel ∧ validUTF8 r.ChannelID ∧ validUTF8 r.ChannelName ∧
    validUTF8 r.ReleaseNotes ∧ validUTF8 r.HelmReleaseName ∧
    validUTF8 r.HelmReleaseNamespace

/-- The release with every string made valid UTF-8: what comes back when the release
is written as JSON and read again. -/
def coerceRelease (r : MockRelease) : MockRelease :=
  { r with VersionLabel := toValidUTF8 r.VersionLabel, ChannelID := toValidUTF8 r.ChannelID,
           ChannelName := toValidUTF8 r.ChannelName,
           ReleaseNotes := toValidUTF8 r.ReleaseNotes,
           HelmReleaseName := toValidUTF8 r.HelmReleaseName,
           HelmReleaseNamespace := toValidUTF8 r.HelmReleaseNamespace }

/-- The mock data with every string of every release made valid UTF-8. -/
def coerceMockData (d : MockData) : MockData :=
  { CurrentRelease := d.CurrentRelease.map coerceRelease,
    DeployedReleases := d.DeployedReleases.map (fun rs => rs.map coerceRelease),
    AvailableReleases := d.AvailableReleases.map (fun rs => rs.map coerceRelease) }

/-- The integer is a value of the Go type `int` (64 bits). -/
abbrev int64Range (n : Int) : Prop := -(2 : Int) ^ 63 ≤ n ∧ n < (2 : Int) ^ 63

/-- The integer fields of the release are values of the Go type `int`. -/
abbrev validRelease (r : MockRelease) : Prop :=
  int64Range r.ChannelSequence ∧ int64Range r.ReleaseSequence ∧
    int64Range r.HelmReleaseRevision

/-- The integer fields of every release of the mock data are values of the Go type
`int`. -/
def validMockData (d : MockData) : Prop :=
  (∀ r, d.CurrentRelease = some r → validRelease r) ∧
    (∀ r ∈ d.DeployedReleases.getD [], validRelease r) ∧
    (∀ r ∈ d.AvailableReleases.getD [], validRelease r)

/-! ## Fixtures of the mock store -/

/-- A store bound to `test-namespace` whose backing secret holds `data`. -/
def testStore (data : Option GoMap) : Mock where
  clientset :=
    { secrets := [("test-namespace", { Name := "replicated", Data := data })]
      updateError := none
      updateCalls := [] }
  ns := "test-namespace"

/-- A store bound to `test-namespace` in a cluster that has a backing secret in another
place only. -/
def storeWithoutSecret : Mock where
  clientset :=
    { secrets := [("other-namespace", { Name := "replicated", Data := none })]
      updateError := none
      updateCalls := [] }
  ns := "test-namespace"

/-- A release with the given version label and channel sequence. -/
def testRelease (label : String) (sequence : Int) : MockRelease :=
  { zeroRelease with VersionLabel := goString label, ChannelSequence := sequence }

/-- A release installed with helm. -/
def helmRelease : MockRelease :=
  { zeroRelease with VersionLabel := goString "1.2.3", ChannelID := goString "channel-id",
                     IsRequired := true, ReleaseNotes := goString "notes",
                     HelmReleaseName := goString "app", HelmReleaseRevision := 4,
                     HelmReleaseNamespace := goString "default" }

/-- The payload `json.Marshal` writes for the mock data. -/
def payloadOf (d : MockData) : String := String.mk (encodeMockData d)

/-- A release whose version label is the one byte `0xff`, which is not valid UTF-8. -/
def brokenRelease : MockRelease :=
  { zeroRelease with VersionLabel := [GoChar.invalid 255] }

/-- Mock data whose current release is `brokenRelease`. -/
def brokenMockData : MockData :=
  { zeroMockData with CurrentRelease := some brokenRelease }

/-- Mock data with deployed releases A and B, an available release C, and a current
release installed with helm. -/
def testMockData : MockData where
  CurrentRelease := some helmRelease
  DeployedReleases := some [testRelease "A" 1, testRelease "B" 2]
  AvailableReleases := some [testRelease "C" 3]

/-- The data of a backing secret that holds a license besides the mock data. -/
def licensedData : GoMap :=
  [("license", "abc"), (replicatedMockDataKey, payloadOf testMockData)]

end MockStore

namespace Heartbeat

/-! ## Lemmas on maps -/

theorem lookup_filter_ne (m : GoMap) (k k' : String) (h : k' ≠ k) :
    List.lookup k' (m.filter (fun e => e.1 != k)) = List.lookup k' m := by
  induction m with
  | nil => rfl
  | cons e m ih =>
    obtain ⟨a, b⟩ := e
    by_cases hak : a = k
    · subst hak
      have hne : (k' == a) = false := by simpa using h
      simp [List.filter, List.lookup, hne, ih]
    · have hk : (a != k) = true := by simpa using hak
      simp only [List.filter, hk, List.lookup, ih]

theorem mapGet_mapSet_self (m : GoMap) (k v : String) : mapGet (mapSet m k v) k = some v := by
  simp [mapGet, mapSet, List.lookup]

theorem mapGet_mapSet_ne (m : GoMap) (k v k' : String) (h : k' ≠ k) :
    mapGet (mapSet m k v) k' = mapGet m k' := by
  have hne : (k' == k) = false := by simpa using h
  simp [mapGet, mapSet, List.lookup, hne, lookup_filter_ne m k k' h]

/-! ## Lemmas on decimal formatting -/

theorem digitChar_spec (d : Nat) (h : d < 10) :
    ('0' ≤ digitChar d ∧ digitChar d ≤ '9') ∧ (digitChar d).toNat - '0'.toNat = d := by
  interval_cases d <;> decide

theorem parseDigits_formatBitsLoop (fuel : Nat) :
    ∀ (u : Nat) (acc : List Char), u < fuel →
      parseDigits (formatBitsLoop fuel u acc) 0 = parseDigits acc u := by
  induction fuel with
  | zero => intro u acc h; omega
  | succ fuel ih =>
    intro u acc h
    unfold formatBitsLoop
    by_cases hu : u < 10
    · obtain ⟨hr, hv⟩ := digitChar_spec u hu
      have hz : '0'.toNat = 48 := rfl
      rw [hz] at hv
      simp [hu, parseDigits, hr, hv]
    · have hlt : u / 10 < fuel := by omega
      obtain ⟨hr, hv⟩ := digitChar_spec (u % 10) (Nat.mod_lt _ (by decide))
      have hdm : u / 10 * 10 + u % 10 = u := by omega
      have hz : '0'.toNat = 48 := rfl
      rw [hz] at hv
      rw [if_neg hu, ih (u / 10) _ hlt]
      simp [parseDigits, hr, hv, hdm]

theorem parseDigits_formatBits (u : Nat) : parseDigits (formatBits u) 0 = some u := by
  unfold formatBits
  rw [parseDigits_formatBitsLoop (u + 1) u [] (Nat.lt_succ_self u)]
  rfl

/-! ## Lemmas on the owner loop -/

theorem loop_guard_eq (owner : OwnerReference) :
    (owner.APIVersion != "apps/v1" || owner.Kind != "ReplicaSet") = !qualifies owner := by
  unfold qualifies
  cases h1 : owner.APIVersion == "apps/v1" <;> cases h2 : owner.Kind == "ReplicaSet" <;>
    simp [bne, h1, h2]

theorem podRevisionLoop_skip (clientset : Clientset) (ns : String) (owner : OwnerReference)
    (rest : List OwnerReference) (r0 : Int) (h : qualifies owner = false) :
    podRevisionLoop clientset ns (owner :: rest) r0 = podRevisionLoop clientset ns rest r0 := by
  have hg := loop_guard_eq owner
  rw [h] at hg
  rw [podRevisionLoop]
  simp only [hg, Bool.not_false, if_true]

theorem podRevisionLoop_error (clientset : Clientset) (ns : String) (owner : OwnerReference)
    (rest : List OwnerReference) (r0 : Int) (err : Error) (h : qualifies owner = true)
    (hget : clientset.ReplicaSetsGet ns owner.Name = .error err) :
    podRevisionLoop clientset ns (owner :: rest) r0 =
      ([owner.Name], .error (Wrapf err "failed to get replicaset " owner.Name)) := by
  have hg := loop_guard_eq owner
  rw [h] at hg
  rw [podRevisionLoop]
  simp only [hg, Bool.not_true, hget]
  rfl

theorem podRevisionLoop_absent (clientset : Clientset) (ns : String) (owner : OwnerReference)
    (rest : List OwnerReference) (r0 : Int) (replicaSet : ReplicaSet)
    (h : qualifies owner = true)
    (hget : clientset.ReplicaSetsGet ns owner.Name = .ok replicaSet)
    (hann : mapGet replicaSet.Annotations revisionAnnotationKey = none) :
    podRevisionLoop clientset ns (owner :: rest) r0 =
      (owner.Name :: (podRevisionLoop clientset ns rest r0).1,
        (podRevisionLoop clientset ns rest r0).2) := by
  have hg := loop_guard_eq owner
  rw [h] at hg
  rw [podRevisionLoop]
  simp only [hg, Bool.not_true, hget, hann]
  rfl

theorem podRevisionLoop_parsed (clientset : Clientset) (ns : String) (owner : OwnerReference)
    (rest : List OwnerReference) (r0 : Int) (replicaSet : ReplicaSet) (v : String) (n : Int)
    (h : qualifies owner = true)
    (hget : clientset.ReplicaSetsGet ns owner.Name = .ok replicaSet)
    (hann : mapGet replicaSet.Annotations revisionAnnotationKey = some v)
    (hparse : Atoi v = .ok n) :
    podRevisionLoop clientset ns (owner :: rest) r0 =
      (owner.Name :: (podRevisionLoop clientset ns rest n).1,
        (podRevisionLoop clientset ns rest n).2) := by
  have hg := loop_guard_eq owner
  rw [h] at hg
  rw [podRevisionLoop]
  simp only [hg, Bool.not_true, hget, hann, hparse]
  rfl

theorem podRevisionLoop_unparsable (clientset : Clientset) (ns : String)
    (owner : OwnerReference) (rest : List OwnerReference) (r0 : Int) (replicaSet : ReplicaSet)
    (v : String) (err : Error) (h : qualifies owner = true)
    (hget : clientset.ReplicaSetsGet ns owner.Name = .ok replicaSet)
    (hann : mapGet replicaSet.Annotations revisionAnnotationKey = some v)
    (hparse : Atoi v = .error err) :
    podRevisionLoop clientset ns (owner :: rest) r0 =
      ([owner.Name], .error
        (Wrapf err "failed to parse revision annotation for replicaset " replicaSet.Name)) := by
  have hg := loop_guard_eq owner
  rw [h] at hg
  rw [podRevisionLoop]
  simp only [hg, Bool.not_true, hget, hann, hparse]
  rfl

theorem podRevisionLoop_error_iff (clientset : Clientset) (ns : String)
    (owners : List OwnerReference) :
    ∀ r0 : Int, (∃ e, (podRevisionLoop clientset ns owners r0).2 = .error e) ↔
      ∃ owner ∈ owners, ownerFails clientset ns owner := by
  induction owners with
  | nil => intro r0; simp [podRevisionLoop]
  | cons o rest ih =>
    intro r0
    simp only [List.mem_cons, exists_eq_or_imp]
    by_cases hq : qualifies o = true
    · cases hget : clientset.ReplicaSetsGet ns o.Name with
      | error err =>
        rw [podRevisionLoop_error clientset ns o rest r0 err hq hget]
        exact ⟨fun _ => Or.inl ⟨hq, Or.inl ⟨err, hget⟩⟩, fun _ => ⟨_, rfl⟩⟩
      | ok rs =>
        cases hann : mapGet rs.Annotations revisionAnnotationKey with
        | none =>
          rw [podRevisionLoop_absent clientset ns o rest r0 rs hq hget hann]
          have hno : ¬ ownerFails clientset ns o := by
            rintro ⟨_, ⟨err, he⟩ | ⟨rs2, v, err, h1, h2, _⟩⟩
            · rw [hget] at he; cases he
            · rw [hget] at h1; cases h1; rw [hann] at h2; cases h2
          simp only [hno, false_or]
          exact ih r0
        | some v =>
          cases hparse : Atoi v with
          | error err =>
            rw [podRevisionLoop_unparsable clientset ns o rest r0 rs v err hq hget hann hparse]
            exact ⟨fun _ => Or.inl ⟨hq, Or.inr ⟨rs, v, err, hget, hann, hparse⟩⟩,
              fun _ => ⟨_, rfl⟩⟩
          | ok n =>
            rw [podRevisionLoop_parsed clientset ns o rest r0 rs v n hq hget hann hparse]
            have hno : ¬ ownerFails clientset ns o := by
              rintro ⟨_, ⟨err, he⟩ | ⟨rs2, w, err, h1, h2, h3⟩⟩
              · rw [hget] at he; cases he
              · rw [hget] at h1; cases h1; rw [hann] at h2; cases h2
                rw [hparse] at h3; cases h3
            simp only [hno, false_or]
            exact ih n
    · have hq2 : qualifies o = false := by simpa using hq
      rw [podRevisionLoop_skip clientset ns o rest r0 hq2]
      have hno : ¬ ownerFails clientset ns o := fun h => hq h.1
      simp only [hno, false_or]
      exact ih r0

theorem getLast?_cons_eq (v : String) (l : List String) :
    (v :: l).getLast? = match l.getLast? with
      | none => some v
      | some w => some w := by
  cases l with
  | nil => rfl
  | cons a l =>
    rw [List.getLast?_cons_cons]
    cases h : (a :: l).getLast? with
    | none => simp at h
    | some w => rfl

theorem podRevisionLoop_readable (clientset : Clientset) (ns : String)
    (owners : List OwnerReference) :
    ∀ r0 : Int, ownersReadable clientset ns owners →
      podRevisionLoop clientset ns owners r0 =
        ((owners.filter qualifies).map (fun owner => owner.Name),
          .ok (match (owners.filterMap (contribution clientset ns)).getLast? with
            | none => r0
            | some v => parsedValue v)) := by
  induction owners with
  | nil => intro r0 _; rfl
  | cons o rest ih =>
    intro r0 hread
    have hrest : ownersReadable clientset ns rest :=
      fun owner hm hq => hread owner (List.mem_cons_of_mem _ hm) hq
    by_cases hq : qualifies o = true
    · obtain ⟨rs, hget, hparses⟩ := hread o (List.mem_cons_self _ _) hq
      cases hann : mapGet rs.Annotations revisionAnnotationKey with
      | none =>
        have hc : contribution clientset ns o = none := by
          simp [contribution, hq, hget, hann]
        rw [podRevisionLoop_absent clientset ns o rest r0 rs hq hget hann, ih r0 hrest]
        simp [List.filter, hq, List.filterMap, hc]
      | some v =>
        obtain ⟨n, hparse⟩ := hparses v hann
        have hc : contribution clientset ns o = some v := by
          simp [contribution, hq, hget, hann]
        have hv : parsedValue v = n := by simp [parsedValue, hparse]
        rw [podRevisionLoop_parsed clientset ns o rest r0 rs v n hq hget hann hparse,
          ih n hrest]
        simp only [List.filter, hq, List.map, List.filterMap, hc, getLast?_cons_eq]
        cases (List.filterMap (contribution clientset ns) rest).getLast? with
        | none => simp [hv]
        | some w => rfl
    · have hq2 : qualifies o = false := by simpa using hq
      have hc : contribution clientset ns o = none := by simp [contribution, hq2]
      rw [podRevisionLoop_skip clientset ns o rest r0 hq2, ih r0 hrest]
      simp [List.filter, hq2, List.filterMap, hc]

/-! ## Lemmas on canReport -/

theorem canReport_of_fetched {License : Type} (env : Env License) (clientset : Clientset)
    (ns : String) (license : Option License) (deployment : Deployment) (pod : Pod)
    (hguards : guardsOff env license)
    (hd : clientset.DeploymentsGet ns env.GetReplicatedDeploymentName = .ok deployment)
    (hp : clientset.PodsGet ns (env.Getenv "REPLICATED_POD_NAME") = .ok pod) :
    canReport env clientset ns license =
      match (podRevisionLoop clientset ns pod.OwnerReferences 0).2 with
      | .error err => (false, some err)
      | .ok podRevision =>
        match deploymentRevision deployment with
        | .error err => (false, some err)
        | .ok deploymentRevision =>
          if podRevision != deploymentRevision then (false, none) else (true, none) := by
  obtain ⟨hair, hdev⟩ := hguards
  unfold canReport
  simp only [hair, hdev, hd, hp, Bool.false_eq_true, if_false]

theorem deploymentRevision_of_parses (deployment : Deployment)
    (h : annotationParses deployment.Annotations) :
    deploymentRevision deployment = .ok (revisionOf deployment.Annotations) := by
  unfold deploymentRevision revisionOf
  cases hann : mapGet deployment.Annotations revisionAnnotationKey with
  | none => rfl
  | some v =>
    obtain ⟨n, hn⟩ := h v hann
    simp [parsedValue, hn]

theorem canReport_of_readable {License : Type} (env : Env License) (clientset : Clientset)
    (ns : String) (license : Option License) (deployment : Deployment) (pod : Pod)
    (hguards : guardsOff env license)
    (hd : clientset.DeploymentsGet ns env.GetReplicatedDeploymentName = .ok deployment)
    (hp : clientset.PodsGet ns (env.Getenv "REPLICATED_POD_NAME") = .ok pod)
    (howners : ownersReadable clientset ns pod.OwnerReferences)
    (hdep : annotationParses deployment.Annotations) :
    canReport env clientset ns license =
      if effectiveRevision clientset ns pod.OwnerReferences
          != revisionOf deployment.Annotations then (false, none) else (true, none) := by
  rw [canReport_of_fetched env clientset ns license deployment pod hguards hd hp,
    podRevisionLoop_readable clientset ns pod.OwnerReferences 0 howners,
    deploymentRevision_of_parses deployment hdep]
  rfl

/-! ## The eligibility check: claims -/

/-- C1: with the airgap and dev guards off, when the deployment, the process's own pod
and every qualifying owning replica-set are fetched and their revision annotations
parse, `canReport` returns `(true, nil)` for every pod whose effective revision (0 when
no owner contributes) equals the deployment's revision (0 when its annotation is
absent). -/
theorem canReport_true_of_equal_revisions {License : Type} (env : Env License)
    (clientset : Clientset) (ns : String) (license : Option License)
    (deployment : Deployment) (pod : Pod)
    (hguards : guardsOff env license)
    (hd : clientset.DeploymentsGet ns env.GetReplicatedDeploymentName = .ok deployment)
    (hp : clientset.PodsGet ns (env.Getenv "REPLICATED_POD_NAME") = .ok pod)
    (howners : ownersReadable clientset ns pod.OwnerReferences)
    (hdep : annotationParses deployment.Annotations)
    (heq : effectiveRevision clientset ns pod.OwnerReferences
      = revisionOf deployment.Annotations) :
    canReport env clientset ns license = (true, none) := by
  rw [canReport_of_readable env clientset ns license deployment pod hguards hd hp howners
    hdep, heq]
  simp

/-- C1 at the first test case (revisions 1 and 1) and at the default case, where the
deployment has no annotation and the pod has no owner. -/
theorem canReport_true_of_equal_revisions_witness :
    canReport testEnv (NewSimpleClientset matchingCluster) "test-namespace" none
        = (true, none) ∧
      canReport testEnv (NewSimpleClientset bareCluster) "test-namespace" none
        = (true, none) :=
  ⟨canReport_true_of_equal_revisions testEnv (NewSimpleClientset matchingCluster)
      "test-namespace" none (testDeployment (some "1")).2
      (testPod "test-pod" [replicaSetOwner "test-replicaset"]).2
      ⟨rfl, rfl⟩ (by decide) (by decide)
      (by
        intro owner hm _
        rw [List.mem_singleton.mp hm]
        refine ⟨(testReplicaSet "test-replicaset" (some "1")).2, by decide, ?_⟩
        intro v hv
        have hget : mapGet (testReplicaSet "test-replicaset" (some "1")).2.Annotations
            revisionAnnotationKey = some "1" := by decide
        rw [hget] at hv
        cases hv
        exact ⟨1, by decide⟩)
      (by
        intro v hv
        have hget : mapGet (testDeployment (some "1")).2.Annotations revisionAnnotationKey
            = some "1" := by decide
        rw [hget] at hv
        cases hv
        exact ⟨1, by decide⟩)
      (by decide),
    canReport_true_of_equal_revisions testEnv (NewSimpleClientset bareCluster)
      "test-namespace" none (testDeployment none).2 (testPod "test-pod" []).2
      ⟨rfl, rfl⟩ (by decide) (by decide)
      (by intro owner hm; cases hm)
      (by intro v hv; cases hv)
      (by decide)⟩

/-- C2: with the guards off, when all fetches succeed and all present revision
annotations parse, `canReport` returns `(false, nil)`, false with no error, for every
pod whose effective revision differs from the deployment's revision. -/
theorem canReport_false_of_different_revisions {License : Type} (env : Env License)
    (clientset : Clientset) (ns : String) (license : Option License)
    (deployment : Deployment) (pod : Pod)
    (hguards : guardsOff env license)
    (hd : clientset.DeploymentsGet ns env.GetReplicatedDeploymentName = .ok deployment)
    (hp : clientset.PodsGet ns (env.Getenv "REPLICATED_POD_NAME") = .ok pod)
    (howners : ownersReadable clientset ns pod.OwnerReferences)
    (hdep : annotationParses deployment.Annotations)
    (hne : effectiveRevision clientset ns pod.OwnerReferences
      ≠ revisionOf deployment.Annotations) :
    canReport env clientset ns license = (false, none) := by
  rw [canReport_of_readable env clientset ns license deployment pod hguards hd hp howners
    hdep]
  simp [hne]

/-- C2 at the second test case: deployment revision 2, owning replica-set revision 1. -/
theorem canReport_false_of_different_revisions_witness :
    canReport testEnv (NewSimpleClientset staleCluster) "test-namespace" none
      = (false, none) :=
  canReport_false_of_different_revisions testEnv (NewSimpleClientset staleCluster)
    "test-namespace" none (testDeployment (some "2")).2
    (testPod "test-pod" [replicaSetOwner "test-replicaset"]).2
    ⟨rfl, rfl⟩ (by decide) (by decide)
    (by
      intro owner hm _
      rw [List.mem_singleton.mp hm]
      refine ⟨(testReplicaSet "test-replicaset" (some "1")).2, by decide, ?_⟩
      intro v hv
      have hget : mapGet (testReplicaSet "test-replicaset" (some "1")).2.Annotations
          revisionAnnotationKey = some "1" := by decide
      rw [hget] at hv
      cases hv
      exact ⟨1, by decide⟩)
    (by
      intro v hv
      have hget : mapGet (testDeployment (some "2")).2.Annotations revisionAnnotationKey
          = some "2" := by decide
      rw [hget] at hv
      cases hv
      exact ⟨2, by decide⟩)
    (by decide)

/-- C3: if the airgap predicate is true, `canReport` returns `(false, nil)` for every
client, namespace and license, whatever the client's fetches answer. -/
theorem canReport_airgap {License : Type} (env : Env License) (clientset : Clientset)
    (ns : String) (license : Option License) (hair : env.IsAirgap = true) :
    canReport env clientset ns license = (false, none) := by
  unfold canReport
  simp [hair]

/-- C3 on a cluster in which neither the deployment nor the pod exists. -/
theorem canReport_airgap_witness :
    (NewSimpleClientset emptyCluster).DeploymentsGet "test-namespace" "replicated"
        = .error (.api "deployment not found: replicated") ∧
      canReport airgapEnv (NewSimpleClientset emptyCluster) "test-namespace" none
        = (false, none) :=
  ⟨by decide,
    canReport_airgap airgapEnv (NewSimpleClientset emptyCluster) "test-namespace" none rfl⟩

/-- C4: if the dev-environment predicate is true and the license is not a dev license,
`canReport` returns `(false, nil)` for every client; and in a dev environment with a dev
license and no airgap, `canReport` returns what it returns outside a dev environment. -/
theorem canReport_dev_guard {License : Type} (env : Env License) (clientset : Clientset)
    (ns : String) (license : Option License) :
    (env.IsDevEnv = true → env.IsDevLicense license = false →
        canReport env clientset ns license = (false, none)) ∧
      (env.IsAirgap = false → env.IsDevEnv = true → env.IsDevLicense license = true →
        canReport env clientset ns license
          = canReport { env with IsDevEnv := false } clientset ns license) := by
  constructor
  · intro hdev hlic
    unfold canReport
    cases env.IsAirgap <;> simp [hdev, hlic]
  · intro hair hdev hlic
    unfold canReport
    simp [hair, hdev, hlic]

/-- C4 in a dev environment: with a license that is not a dev license the matching
cluster gives `(false, nil)`; with a dev license it gives `(true, nil)` and the stale
cluster gives `(false, nil)`, as outside a dev environment. -/
theorem canReport_dev_guard_witness :
    canReport devEnv (NewSimpleClientset matchingCluster) "test-namespace" (some false)
        = (false, none) ∧
      canReport devEnv (NewSimpleClientset matchingCluster) "test-namespace" (some true)
        = canReport { devEnv with IsDevEnv := false } (NewSimpleClientset matchingCluster)
            "test-namespace" (some true) ∧
      canReport devEnv (NewSimpleClientset matchingCluster) "test-namespace" (some true)
        = (true, none) ∧
      canReport devEnv (NewSimpleClientset staleCluster) "test-namespace" (some true)
        = (false, none) :=
  ⟨(canReport_dev_guard devEnv (NewSimpleClientset matchingCluster) "test-namespace"
      (some false)).1 rfl (by decide),
    (canReport_dev_guard devEnv (NewSimpleClientset matchingCluster) "test-namespace"
      (some true)).2 rfl rfl (by decide),
    by decide, by decide⟩

/-- C5: with the guards off, whenever the fetch of the deployment, of the process's own
pod, or of any qualifying owner of that pod fails, `canReport` returns false together
with a non-nil error. -/
theorem canReport_fetch_failure {License : Type} (env : Env License)
    (clientset : Clientset) (ns : String) (license : Option License)
    (hguards : guardsOff env license)
    (hfail :
      (∃ err, clientset.DeploymentsGet ns env.GetReplicatedDeploymentName = .error err) ∨
      (∃ err, clientset.PodsGet ns (env.Getenv "REPLICATED_POD_NAME") = .error err) ∨
      (∃ pod, clientset.PodsGet ns (env.Getenv "REPLICATED_POD_NAME") = .ok pod ∧
        ∃ owner ∈ pod.OwnerReferences, qualifies owner = true ∧
          ∃ err, clientset.ReplicaSetsGet ns owner.Name = .error err)) :
    ∃ e, canReport env clientset ns license = (false, some e) := by
  obtain ⟨hair, hdev⟩ := hguards
  cases hd : clientset.DeploymentsGet ns env.GetReplicatedDeploymentName with
  | error err =>
    exact ⟨Wrap err "failed to get replicated deployment", by
      unfold canReport; simp only [hair, hdev, hd, Bool.false_eq_true, if_false]⟩
  | ok deployment =>
    cases hp : clientset.PodsGet ns (env.Getenv "REPLICATED_POD_NAME") with
    | error err =>
      exact ⟨Wrap err "failed to get replicated pod", by
        unfold canReport; simp only [hair, hdev, hd, hp, Bool.false_eq_true, if_false]⟩
    | ok pod =>
      rcases hfail with ⟨err, he⟩ | ⟨err, he⟩ | ⟨pod2, hp2, owner, hm, hq, err, he⟩
      · rw [hd] at he; cases he
      · rw [hp] at he; cases he
      · rw [hp] at hp2
        cases hp2
        obtain ⟨e, hloop⟩ :=
          (podRevisionLoop_error_iff clientset ns pod.OwnerReferences 0).mpr
            ⟨owner, hm, hq, Or.inl ⟨err, he⟩⟩
        exact ⟨e, by
          rw [canReport_of_fetched env clientset ns license deployment pod ⟨hair, hdev⟩ hd hp,
            hloop]⟩

/-- C5 on a cluster that holds nothing (the deployment fetch fails) and on a cluster
where the replica-set that owns the pod is missing. -/
theorem canReport_fetch_failure_witness :
    (∃ e, canReport testEnv (NewSimpleClientset emptyCluster) "test-namespace" none
        = (false, some e)) ∧
      ∃ e, canReport testEnv (NewSimpleClientset orphanCluster) "test-namespace" none
        = (false, some e) :=
  ⟨canReport_fetch_failure testEnv (NewSimpleClientset emptyCluster) "test-namespace" none
      ⟨rfl, rfl⟩ (Or.inl ⟨.api "deployment not found: replicated", by decide⟩),
    canReport_fetch_failure testEnv (NewSimpleClientset orphanCluster) "test-namespace" none
      ⟨rfl, rfl⟩
      (Or.inr (Or.inr ⟨(testPod "test-pod" [replicaSetOwner "test-replicaset"]).2,
        by decide, replicaSetOwner "test-replicaset", List.mem_singleton.mpr rfl,
        by decide, .api "replicaset not found: test-replicaset", by decide⟩))⟩

/-- C6, as stated, fails: the deployment and the owning replica-set are fetched, both
carry the revision annotation `-1`, and `canReport` returns `(true, nil)`; with a pod
that has no owner the result is `(false, nil)`. No error is returned. -/
theorem canReport_negative_revision_no_error :
    (NewSimpleClientset negativeCluster).DeploymentsGet "test-namespace" "replicated"
        = .ok (testDeployment (some "-1")).2 ∧
      mapGet (testDeployment (some "-1")).2.Annotations revisionAnnotationKey = some "-1" ∧
      Atoi "-1" = .ok (-1) ∧
      canReport testEnv (NewSimpleClientset negativeCluster) "test-namespace" none
        = (true, none) ∧
      canReport testEnv
          (NewSimpleClientset { negativeCluster with pods := [testPod "test-pod" []] })
          "test-namespace" none
        = (false, none) := by
  decide

/-- C6, amended: with the guards off and all fetches succeeding, `canReport` returns
false with a non-nil error when the revision annotation of the deployment or of a
qualifying owning replica-set is present and `strconv.Atoi` rejects its value (as it
does `abc` and the empty string); it returns no error when every annotation that is
present parses, absent annotations included. `Atoi` accepts `-1`. -/
theorem canReport_annotation_unparsable {License : Type} (env : Env License)
    (clientset : Clientset) (ns : String) (license : Option License)
    (deployment : Deployment) (pod : Pod)
    (hguards : guardsOff env license)
    (hd : clientset.DeploymentsGet ns env.GetReplicatedDeploymentName = .ok deployment)
    (hp : clientset.PodsGet ns (env.Getenv "REPLICATED_POD_NAME") = .ok pod) :
    (((∃ v err, mapGet deployment.Annotations revisionAnnotationKey = some v ∧
            Atoi v = .error err) ∨
          (∃ owner ∈ pod.OwnerReferences, qualifies owner = true ∧
            ∃ replicaSet v err, clientset.ReplicaSetsGet ns owner.Name = .ok replicaSet ∧
              mapGet replicaSet.Annotations revisionAnnotationKey = some v ∧
              Atoi v = .error err)) →
        ∃ e, canReport env clientset ns license = (false, some e)) ∧
      ((annotationParses deployment.Annotations ∧
          ownersReadable clientset ns pod.OwnerReferences) →
        (canReport env clientset ns license).2 = none) ∧
      (∃ err, Atoi "abc" = .error err) ∧ (∃ err, Atoi "" = .error err) ∧
      Atoi "-1" = .ok (-1) := by
  refine ⟨?_, ?_, ⟨.NumError "Atoi" "abc", by decide⟩, ⟨.NumError "Atoi" "", by decide⟩,
    by decide⟩
  · intro hbad
    rw [canReport_of_fetched env clientset ns license deployment pod hguards hd hp]
    rcases hbad with ⟨v, err, hann, hparse⟩ | ⟨owner, hm, hq, rs, v, err, hget, hann, hparse⟩
    · have hdr : deploymentRevision deployment
          = .error (Wrap err "failed to parse revision annotation for deployment") := by
        simp [deploymentRevision, hann, hparse]
      cases hloop : (podRevisionLoop clientset ns pod.OwnerReferences 0).2 with
      | error e => exact ⟨e, rfl⟩
      | ok r =>
        exact ⟨Wrap err "failed to parse revision annotation for deployment", by
          simp only [hdr]⟩
    · obtain ⟨e, hloop⟩ :=
        (podRevisionLoop_error_iff clientset ns pod.OwnerReferences 0).mpr
          ⟨owner, hm, hq, Or.inr ⟨rs, v, err, hget, hann, hparse⟩⟩
      exact ⟨e, by rw [hloop]⟩
  · rintro ⟨hdep, howners⟩
    rw [canReport_of_readable env clientset ns license deployment pod hguards hd hp howners
      hdep]
    split <;> rfl

/-- C6 amended, on a cluster whose owning replica-set is annotated `abc` (an error) and
on a cluster without any revision annotation (no error). -/
theorem canReport_annotation_unparsable_witness :
    (∃ e, canReport testEnv (NewSimpleClientset garbledCluster) "test-namespace" none
        = (false, some e)) ∧
      (canReport testEnv (NewSimpleClientset bareCluster) "test-namespace" none).2 = none :=
  ⟨(canReport_annotation_unparsable testEnv (NewSimpleClientset garbledCluster)
      "test-namespace" none (testDeployment (some "1")).2
      (testPod "test-pod" [replicaSetOwner "test-replicaset"]).2 ⟨rfl, rfl⟩
      (by decide) (by decide)).1
      (Or.inr ⟨replicaSetOwner "test-replicaset", List.mem_singleton.mpr rfl, by decide,
        (testReplicaSet "test-replicaset" (some "abc")).2, "abc",
        .NumError "Atoi" "abc", by decide, by decide, by decide⟩),
    (canReport_annotation_unparsable testEnv (NewSimpleClientset bareCluster)
      "test-namespace" none (testDeployment none).2 (testPod "test-pod" []).2 ⟨rfl, rfl⟩
      (by decide) (by decide)).2.1
      ⟨(by intro v hv; cases hv), (by intro owner hm; cases hm)⟩⟩

/-- C7: when every qualifying owner's replica-set is fetched and its annotation, if
present, parses, the loop of `canReport` fetches exactly the owners of API version
`apps/v1` and kind `ReplicaSet`, in list order, and ends with `podRevision` equal to the
effective revision: 0 when no owner contributes, and otherwise the parsed annotation of
the last owner that qualifies and whose replica-set carries the annotation, whatever
comes before it and however many owners without contribution come after it. That value
is what `canReport` compares with the deployment's revision. -/
theorem podRevision_last_owner_wins (clientset : Clientset) (ns : String)
    (owners : List OwnerReference) (hread : ownersReadable clientset ns owners) :
    podRevisionLoop clientset ns owners 0
        = ((owners.filter qualifies).map (fun owner => owner.Name),
            .ok (effectiveRevision clientset ns owners)) ∧
      ((∀ owner ∈ owners, contribution clientset ns owner = none) →
        effectiveRevision clientset ns owners = 0) ∧
      (∀ (before after : List OwnerReference) (owner : OwnerReference)
          (replicaSet : ReplicaSet) (v : String) (n : Int),
        owners = before ++ owner :: after → qualifies owner = true →
        clientset.ReplicaSetsGet ns owner.Name = .ok replicaSet →
        mapGet replicaSet.Annotations revisionAnnotationKey = some v → Atoi v = .ok n →
        (∀ later ∈ after, contribution clientset ns later = none) →
        effectiveRevision clientset ns owners = n) ∧
      (∀ {License : Type} (env : Env License) (license : Option License)
          (deployment : Deployment) (pod : Pod),
        guardsOff env license →
        clientset.DeploymentsGet ns env.GetReplicatedDeploymentName = .ok deployment →
        clientset.PodsGet ns (env.Getenv "REPLICATED_POD_NAME") = .ok pod →
        pod.OwnerReferences = owners → annotationParses deployment.Annotations →
        canReport env clientset ns license
          = (decide (effectiveRevision clientset ns owners
              = revisionOf deployment.Annotations), none)) := by
  refine ⟨podRevisionLoop_readable clientset ns owners 0 hread, ?_, ?_, ?_⟩
  · intro hnone
    have hnil : owners.filterMap (contribution clientset ns) = [] :=
      List.filterMap_eq_nil_iff.mpr hnone
    simp [effectiveRevision, hnil]
  · intro before after owner replicaSet v n howners hq hget hann hparse hafter
    have hc : contribution clientset ns owner = some v := by
      simp [contribution, hq, hget, hann]
    have hnil : after.filterMap (contribution clientset ns) = [] :=
      List.filterMap_eq_nil_iff.mpr hafter
    have hlast : (owners.filterMap (contribution clientset ns)).getLast? = some v := by
      rw [howners, List.filterMap_append, List.filterMap_cons, hc, hnil]
      exact List.getLast?_concat _
    simp [effectiveRevision, hlast, parsedValue, hparse]
  · intro License env license deployment pod hguards hd hp hown hdep
    subst hown
    rw [canReport_of_readable env clientset ns license deployment pod hguards hd hp hread
      hdep]
    by_cases heq : effectiveRevision clientset ns pod.OwnerReferences
        = revisionOf deployment.Annotations
    · simp [heq]
    · simp [heq]

/-- C7 on a pod with four owners: a `Deployment` owner and a `ReplicaSet` of another API
version, neither of which exists in the cluster, are not fetched; the replica-set at
revision 3 gives the value, and the replica-set without annotation after it does not
reset it. -/
theorem podRevision_last_owner_wins_witness :
    podRevisionLoop (NewSimpleClientset mixedCluster) "test-namespace" mixedOwners 0
        = (["rs-annotated", "rs-bare"], .ok 3) ∧
      canReport testEnv (NewSimpleClientset mixedCluster) "test-namespace" none
        = (true, none) := by
  have hread : ownersReadable (NewSimpleClientset mixedCluster) "test-namespace"
      mixedOwners := by
    intro owner hm hq
    simp only [mixedOwners, List.mem_cons, List.mem_singleton, List.not_mem_nil,
      or_false] at hm
    rcases hm with h | h | h | h
    · rw [h] at hq; exact absurd hq (by decide)
    · rw [h]
      refine ⟨(testReplicaSet "rs-annotated" (some "3")).2, by decide, ?_⟩
      intro v hv
      have hget : mapGet (testReplicaSet "rs-annotated" (some "3")).2.Annotations
          revisionAnnotationKey = some "3" := by decide
      rw [hget] at hv
      cases hv
      exact ⟨3, by decide⟩
    · rw [h]
      refine ⟨(testReplicaSet "rs-bare" none).2, by decide, ?_⟩
      intro v hv
      cases hv
    · rw [h] at hq; exact absurd hq (by decide)
  have h := podRevision_last_owner_wins (NewSimpleClientset mixedCluster) "test-namespace"
    mixedOwners hread
  have hrev : effectiveRevision (NewSimpleClientset mixedCluster) "test-namespace"
      mixedOwners = 3 :=
    h.2.2.1 [{ APIVersion := "apps/v1", Kind := "Deployment", Name := "some-deployment" }]
      [replicaSetOwner "rs-bare",
        { APIVersion := "extensions/v1beta1", Kind := "ReplicaSet", Name := "rs-legacy" }]
      (replicaSetOwner "rs-annotated") (testReplicaSet "rs-annotated" (some "3")).2 "3" 3
      rfl (by decide) (by decide) (by decide) (by decide) (by decide)
  refine ⟨?_, ?_⟩
  · rw [h.1, hrev]
    decide
  · rw [h.2.2.2 testEnv none (testDeployment (some "3")).2 (testPod "test-pod" mixedOwners).2
      ⟨rfl, rfl⟩ (by decide) (by decide) rfl
      (by
        intro v hv
        have hget : mapGet (testDeployment (some "3")).2.Annotations revisionAnnotationKey
            = some "3" := by decide
        rw [hget] at hv
        cases hv
        exact ⟨3, by decide⟩), hrev]
    decide

/-! ## Heartbeat headers: claims -/

/-- C8: for every heartbeat info, the header `X-Replicated-DownstreamChannelID` is present,
with value `ChannelID`, iff `ChannelID` is non-empty; the header
`X-Replicated-DownstreamChannelName` is present, with value `ChannelName`, iff
`ChannelID` is empty and `ChannelName` is non-empty; the two are never both present. -/
theorem channel_headers_exclusive (info : HeartbeatInfo) :
    mapGet (GetHeartbeatInfoHeaders (some info)) "X-Replicated-DownstreamChannelID"
        = (if info.ChannelID ≠ "" then some info.ChannelID else none) ∧
      mapGet (GetHeartbeatInfoHeaders (some info)) "X-Replicated-DownstreamChannelName"
        = (if info.ChannelID = "" ∧ info.ChannelName ≠ "" then some info.ChannelName
            else none) ∧
      ¬ ((mapGet (GetHeartbeatInfoHeaders (some info))
            "X-Replicated-DownstreamChannelID").isSome = true ∧
          (mapGet (GetHeartbeatInfoHeaders (some info))
            "X-Replicated-DownstreamChannelName").isSome = true) := by
  unfold GetHeartbeatInfoHeaders
  by_cases hid : info.ChannelID = "" <;> by_cases hname : info.ChannelName = "" <;>
    by_cases hdist : info.K8sDistribution = "" <;>
    simp [hid, hname, hdist, mapGet, mapSet, List.lookup, List.filter]

/-- C9: for every heartbeat info the returned mapping holds the five headers
`X-Replicated-K8sVersion`, `X-Replicated-AppStatus`, `X-Replicated-ClusterID`,
`X-Replicated-InstanceID` and `X-Replicated-DownstreamChannelSequence` with the values
of the corresponding fields; the channel sequence is written in base ten: a `-` in
front when it is negative, followed by decimal digits whose value is its magnitude, and
`0` when it is zero. -/
theorem fixed_headers_present (info : HeartbeatInfo) :
    mapGet (GetHeartbeatInfoHeaders (some info)) "X-Replicated-K8sVersion"
        = some info.K8sVersion ∧
      mapGet (GetHeartbeatInfoHeaders (some info)) "X-Replicated-AppStatus"
        = some info.AppStatus ∧
      mapGet (GetHeartbeatInfoHeaders (some info)) "X-Replicated-ClusterID"
        = some info.ClusterID ∧
      mapGet (GetHeartbeatInfoHeaders (some info)) "X-Replicated-InstanceID"
        = some info.InstanceID ∧
      mapGet (GetHeartbeatInfoHeaders (some info)) "X-Replicated-DownstreamChannelSequence"
        = some (FormatInt info.ChannelSequence) ∧
      (FormatInt info.ChannelSequence).toList
        = (if info.ChannelSequence < 0 then ['-'] else [])
            ++ formatBits info.ChannelSequence.natAbs ∧
      parseDigits (formatBits info.ChannelSequence.natAbs) 0
        = some info.ChannelSequence.natAbs ∧
      FormatInt 0 = "0" := by
  refine ⟨?_, ?_, ?_, ?_, ?_, ?_, parseDigits_formatBits _, by decide⟩
  · unfold GetHeartbeatInfoHeaders
    by_cases hid : info.ChannelID = "" <;> by_cases hname : info.ChannelName = "" <;>
      by_cases hdist : info.K8sDistribution = "" <;>
      simp [hid, hname, hdist, mapGet, mapSet, List.lookup, List.filter]
  · unfold GetHeartbeatInfoHeaders
    by_cases hid : info.ChannelID = "" <;> by_cases hname : info.ChannelName = "" <;>
      by_cases hdist : info.K8sDistribution = "" <;>
      simp [hid, hname, hdist, mapGet, mapSet, List.lookup, List.filter]
  · unfold GetHeartbeatInfoHeaders
    by_cases hid : info.ChannelID = "" <;> by_cases hname : info.ChannelName = "" <;>
      by_cases hdist : info.K8sDistribution = "" <;>
      simp [hid, hname, hdist, mapGet, mapSet, List.lookup, List.filter]
  · unfold GetHeartbeatInfoHeaders
    by_cases hid : info.ChannelID = "" <;> by_cases hname : info.ChannelName = "" <;>
      by_cases hdist : info.K8sDistribution = "" <;>
      simp [hid, hname, hdist, mapGet, mapSet, List.lookup, List.filter]
  · unfold GetHeartbeatInfoHeaders
    by_cases hid : info.ChannelID = "" <;> by_cases hname : info.ChannelName = "" <;>
      by_cases hdist : info.K8sDistribution = "" <;>
      simp [hid, hname, hdist, mapGet, mapSet, List.lookup, List.filter]
  · unfold FormatInt
    by_cases hneg : info.ChannelSequence < 0 <;> simp [hneg]

/-- C10 fails on the code: `GetHeartbeatInfoHeaders` never reads the additional metrics.
At the heartbeat info of the test case "additional metrics" the entry
`X-Replicated-TestAdditional` = `baz` is in the additional metrics and the returned
mapping has no such key; and for every heartbeat info the returned mapping is the same
whatever the additional metrics are. -/
theorem additional_metrics_not_applied :
    mapGet additionalMetricsInfo.AdditionalMetrics "X-Replicated-TestAdditional"
        = some "baz" ∧
      mapGet (GetHeartbeatInfoHeaders (some additionalMetricsInfo))
        "X-Replicated-TestAdditional" = none ∧
      ∀ (info : HeartbeatInfo) (metrics : GoMap),
        GetHeartbeatInfoHeaders (some { info with AdditionalMetrics := metrics })
          = GetHeartbeatInfoHeaders (some info) :=
  ⟨by decide, by decide, fun _ _ => rfl⟩

/-! ## Lemmas on request headers -/

theorem headerLookup_filter_ne (h : Header) (k k' : String) (hne : k' ≠ k) :
    headerLookup (h.filter (fun e => e.1 != k)) k' = headerLookup h k' := by
  unfold headerLookup
  induction h with
  | nil => rfl
  | cons e h ih =>
    obtain ⟨a, b⟩ := e
    by_cases hak : a = k
    · subst hak
      have hne2 : (k' == a) = false := by simpa using hne
      simpa [List.filter, List.lookup, hne2] using ih
    · have hk : (a != k) = true := by simpa using hak
      simp only [List.filter, hk, List.lookup]
      cases k' == a <;> simp [ih]

theorem headerLookup_headerSet_self (h : Header) (key value : String) :
    headerLookup (headerSet h key value) (CanonicalMIMEHeaderKey key) = [value] := by
  simp [headerLookup, headerSet, List.lookup]

theorem headerLookup_headerSet_ne (h : Header) (key value k' : String)
    (hne : k' ≠ CanonicalMIMEHeaderKey key) :
    headerLookup (headerSet h key value) k' = headerLookup h k' := by
  have hb : (k' == CanonicalMIMEHeaderKey key) = false := by simpa using hne
  have := headerLookup_filter_ne h (CanonicalMIMEHeaderKey key) k' hne
  unfold headerLookup at this ⊢
  simpa [headerSet, List.lookup, hb] using this

theorem setHeaders_cons (req : Request) (e : String × String)
    (entries : List (String × String)) :
    setHeaders req (e :: entries)
      = setHeaders { req with Header := headerSet req.Header e.1 e.2 } entries := rfl

theorem setHeaders_lookup_other (entries : List (String × String)) :
    ∀ (req : Request) (k' : String),
      (∀ e ∈ entries, k' ≠ CanonicalMIMEHeaderKey e.1) →
      headerLookup (setHeaders req entries).Header k' = headerLookup req.Header k' := by
  induction entries with
  | nil => intro req k' _; rfl
  | cons e entries ih =>
    intro req k' hne
    rw [setHeaders_cons, ih _ k' (fun e' he' => hne e' (List.mem_cons_of_mem _ he'))]
    exact headerLookup_headerSet_ne req.Header e.1 e.2 k' (hne e (List.mem_cons_self _ _))

theorem setHeaders_lookup_entry (entries : List (String × String)) :
    ∀ (req : Request) (k v : String),
      (entries.map (fun e => CanonicalMIMEHeaderKey e.1)).Nodup → (k, v) ∈ entries →
      headerLookup (setHeaders req entries).Header (CanonicalMIMEHeaderKey k) = [v] := by
  induction entries with
  | nil => intro req k v _ hm; cases hm
  | cons e entries ih =>
    intro req k v hnd hm
    rw [List.map_cons, List.nodup_cons] at hnd
    rw [setHeaders_cons]
    rcases List.mem_cons.mp hm with heq | hin
    · subst heq
      rw [setHeaders_lookup_other entries _ (CanonicalMIMEHeaderKey k)]
      · exact headerLookup_headerSet_self req.Header k v
      · intro e' he' heq
        exact hnd.1 (List.mem_map.mpr ⟨e', he', heq.symm⟩)
    · exact ih _ k v hnd.2 hin

theorem mem_of_mapGet (m : GoMap) (k v : String) (h : mapGet m k = some v) : (k, v) ∈ m := by
  unfold mapGet at h
  induction m with
  | nil => simp [List.lookup] at h
  | cons e m ih =>
    obtain ⟨a, b⟩ := e
    by_cases hka : k = a
    · subst hka
      simp [List.lookup] at h
      subst h
      exact List.mem_cons_self _ _
    · have hb : (k == a) = false := by simpa using hka
      simp only [List.lookup, hb] at h
      exact List.mem_cons_of_mem _ (ih h)

theorem heartbeat_header_names_nodup (heartbeatInfo : Option HeartbeatInfo) :
    ((GetHeartbeatInfoHeaders heartbeatInfo).map
      (fun e => CanonicalMIMEHeaderKey e.1)).Nodup := by
  cases heartbeatInfo with
  | none => simp [GetHeartbeatInfoHeaders]
  | some info =>
    unfold GetHeartbeatInfoHeaders
    by_cases hid : info.ChannelID = "" <;> by_cases hname : info.ChannelName = "" <;>
      by_cases hdist : info.K8sDistribution = "" <;>
      simp [hid, hname, hdist, mapSet, List.filter] <;>
      decide

theorem setHeaders_values_other (heartbeatInfo : Option HeartbeatInfo)
    (order : List (String × String)) (req : Request) (k : String)
    (horder : order.Perm (GetHeartbeatInfoHeaders heartbeatInfo))
    (hother : ∀ e ∈ GetHeartbeatInfoHeaders heartbeatInfo,
      CanonicalMIMEHeaderKey k ≠ CanonicalMIMEHeaderKey e.1) :
    headerLookup (setHeaders req order).Header (CanonicalMIMEHeaderKey k)
      = headerLookup req.Header (CanonicalMIMEHeaderKey k) :=
  setHeaders_lookup_other order req (CanonicalMIMEHeaderKey k)
    (fun e he => hother e (horder.mem_iff.mp he))

/-! ## Header injection: claims -/

/-- C11, as stated, fails: the request carries `X-Replicated-Test` = `foo`, the
additional metrics of the heartbeat info hold `X-Replicated-Test` = `bar`, and after
`InjectHeartbeatInfoHeaders` the header `X-Replicated-Test` is still `foo`. -/
theorem inject_keeps_existing_header :
    headerGet testRequest.Header "X-Replicated-Test" = "foo" ∧
      mapGet additionalMetricsInfo.AdditionalMetrics "X-Replicated-Test" = some "bar" ∧
      headerGet (InjectHeartbeatInfoHeaders testRequest (some additionalMetricsInfo)).Header
        "X-Replicated-Test" = "foo" := by
  decide

/-- C11, amended: for every request, every heartbeat info whose additional metrics have
an entry `(k, v)`, and every order in which the loop visits the header map, if `k` is
not the name of a header that `GetHeartbeatInfoHeaders` sets, then after the injection
the header `k` of the request has the values it had before: the additional-metrics
value does not overwrite it. -/
theorem inject_additional_metric_no_overwrite (req : Request) (info : HeartbeatInfo)
    (order : List (String × String)) (k v : String)
    (horder : order.Perm (GetHeartbeatInfoHeaders (some info)))
    (_hmetric : mapGet info.AdditionalMetrics k = some v)
    (hother : ∀ e ∈ GetHeartbeatInfoHeaders (some info),
      CanonicalMIMEHeaderKey k ≠ CanonicalMIMEHeaderKey e.1) :
    headerValues (setHeaders req order).Header k = headerValues req.Header k ∧
      headerGet (setHeaders req order).Header k = headerGet req.Header k := by
  have h := setHeaders_values_other (some info) order req k horder hother
  exact ⟨h, by unfold headerGet; rw [h]⟩

/-- C11 amended, at the test case "additional metrics": `X-Replicated-Test` keeps the
value `foo`. -/
theorem inject_additional_metric_no_overwrite_witness :
    headerGet (InjectHeartbeatInfoHeaders testRequest (some additionalMetricsInfo)).Header
        "X-Replicated-Test"
      = headerGet testRequest.Header "X-Replicated-Test" :=
  (inject_additional_metric_no_overwrite testRequest additionalMetricsInfo
    (GetHeartbeatInfoHeaders (some additionalMetricsInfo)) "X-Replicated-Test" "bar"
    (List.Perm.refl _) (by decide) (by decide)).2

/-- C12: `GetHeartbeatInfoHeaders(nil)` is the empty mapping, and for every request
`InjectHeartbeatInfoHeaders` with a nil heartbeat info returns the request as it was,
so that every header has the values it had. -/
theorem inject_nil_info_unchanged (req : Request) :
    GetHeartbeatInfoHeaders none = [] ∧
      InjectHeartbeatInfoHeaders req none = req ∧
      (∀ k, headerLookup (InjectHeartbeatInfoHeaders req none).Header k
        = headerLookup req.Header k) :=
  ⟨rfl, rfl, fun _ => rfl⟩

/-- C13: for every request, every heartbeat info and every order in which the loop
visits the header map, after the injection each header named by a key `k` of
`GetHeartbeatInfoHeaders(info)` holds exactly the one value the map gives to `k`, and
every header whose name is not such a key has the values it had before. Header names
are compared as `net/http` compares them, by their canonical form. -/
theorem inject_sets_mapped_headers_only (req : Request)
    (heartbeatInfo : Option HeartbeatInfo) (order : List (String × String))
    (horder : order.Perm (GetHeartbeatInfoHeaders heartbeatInfo)) :
    (∀ k v, mapGet (GetHeartbeatInfoHeaders heartbeatInfo) k = some v →
        headerValues (setHeaders req order).Header k = [v] ∧
        headerGet (setHeaders req order).Header k = v) ∧
      (∀ k, (∀ e ∈ GetHeartbeatInfoHeaders heartbeatInfo,
          CanonicalMIMEHeaderKey k ≠ CanonicalMIMEHeaderKey e.1) →
        headerValues (setHeaders req order).Header k = headerValues req.Header k) ∧
      (∀ k, headerValues (setHeaders req order).Header k
        = headerValues (InjectHeartbeatInfoHeaders req heartbeatInfo).Header k) := by
  have hnd : (order.map (fun e => CanonicalMIMEHeaderKey e.1)).Nodup :=
    ((horder.map _).nodup_iff).mpr (heartbeat_header_names_nodup heartbeatInfo)
  have hset : ∀ k v, mapGet (GetHeartbeatInfoHeaders heartbeatInfo) k = some v →
      headerLookup (setHeaders req order).Header (CanonicalMIMEHeaderKey k) = [v] :=
    fun k v hk => setHeaders_lookup_entry order req k v hnd
      (horder.mem_iff.mpr (mem_of_mapGet _ k v hk))
  refine ⟨fun k v hk => ⟨hset k v hk, ?_⟩,
    fun k hother => setHeaders_values_other heartbeatInfo order req k horder hother, ?_⟩
  · unfold headerGet
    rw [hset k v hk]
  · intro k
    unfold headerValues InjectHeartbeatInfoHeaders
    by_cases hk : ∃ e ∈ GetHeartbeatInfoHeaders heartbeatInfo,
        CanonicalMIMEHeaderKey k = CanonicalMIMEHeaderKey e.1
    · obtain ⟨e, he, hke⟩ := hk
      rw [hke, setHeaders_lookup_entry order req e.1 e.2 hnd (horder.mem_iff.mpr he),
        setHeaders_lookup_entry _ req e.1 e.2 (heartbeat_header_names_nodup heartbeatInfo)
          he]
    · have hother : ∀ e ∈ GetHeartbeatInfoHeaders heartbeatInfo,
          CanonicalMIMEHeaderKey k ≠ CanonicalMIMEHeaderKey e.1 :=
        fun e he heq => hk ⟨e, he, heq⟩
      rw [setHeaders_values_other heartbeatInfo order req k horder hother,
        setHeaders_values_other heartbeatInfo _ req k (List.Perm.refl _) hother]

/-- C13 at the test case "additional metrics", the map being visited in reverse: the
header `X-Replicated-AppStatus` holds the one value of the field, and the header
`X-Replicated-Test` is still `foo`. -/
theorem inject_sets_mapped_headers_only_witness :
    headerValues (setHeaders testRequest
        (GetHeartbeatInfoHeaders (some additionalMetricsInfo)).reverse).Header
        "X-Replicated-AppStatus" = [""] ∧
      headerValues (setHeaders testRequest
        (GetHeartbeatInfoHeaders (some additionalMetricsInfo)).reverse).Header
        "X-Replicated-Test" = ["foo"] :=
  ⟨((inject_sets_mapped_headers_only testRequest (some additionalMetricsInfo)
      (GetHeartbeatInfoHeaders (some additionalMetricsInfo)).reverse
      (List.reverse_perm _)).1 "X-Replicated-AppStatus" "" (by decide)).1,
    ((inject_sets_mapped_headers_only testRequest (some additionalMetricsInfo)
      (GetHeartbeatInfoHeaders (some additionalMetricsInfo)).reverse
      (List.reverse_perm _)).2.1 "X-Replicated-Test" (by decide)).trans (by decide)⟩

/-- C14: for every heartbeat info, the returned mapping holds
`X-Replicated-K8sDistribution`, with the value of `K8sDistribution`, iff
`K8sDistribution` is non-empty. -/
theorem distribution_header_iff_nonempty (info : HeartbeatInfo) :
    mapGet (GetHeartbeatInfoHeaders (some info)) "X-Replicated-K8sDistribution"
        = (if info.K8sDistribution ≠ "" then some info.K8sDistribution else none) ∧
      ((mapGet (GetHeartbeatInfoHeaders (some info)) "X-Replicated-K8sDistribution").isSome
        = true ↔ info.K8sDistribution ≠ "") := by
  unfold GetHeartbeatInfoHeaders
  by_cases hid : info.ChannelID = "" <;> by_cases hname : info.ChannelName = "" <;>
    by_cases hdist : info.K8sDistribution = "" <;>
    simp [hid, hname, hdist, mapGet, mapSet, List.lookup, List.filter]

end Heartbeat

namespace MockStore

open Heartbeat

/-! ## Lemmas on JSON strings -/

theorem hexVal_hexChar (k : Nat) (h : k < 16) : hexVal (hexChar k) = some k := by
  interval_cases k <;> decide

theorem char_eq_of_toNat (c : Char) (n : Nat) (h : c.toNat = n) : c = Char.ofNat n := by
  rw [← h]
  exact (Char.ofNat_toNat c).symm

theorem skipWS_cons (c : Char) (cs : List Char)
    (h : ¬ (c.toNat = 32 ∨ c.toNat = 9 ∨ c.toNat = 10 ∨ c.toNat = 13)) :
    skipWS (c :: cs) = c :: cs := by
  simp only [skipWS, h, if_false]

theorem parseStringBody_encodeChar (c : Char) (fuel : Nat) (tail acc : List Char) :
    parseStringBody (fuel + 1) (encodeChar c ++ tail) acc
      = parseStringBody fuel tail (c :: acc) := by
  unfold encodeChar
  by_cases h1 : c = quote ∨ c = backslash
  · rcases h1 with h | h <;> subst h <;> rfl
  · rw [if_neg h1]
    have hq : c ≠ quote := fun h => h1 (Or.inl h)
    have hb : c ≠ backslash := fun h => h1 (Or.inr h)
    by_cases h2 : c.toNat = 10
    · rw [if_pos h2, char_eq_of_toNat c 10 h2]; rfl
    · rw [if_neg h2]
      by_cases h3 : c.toNat = 13
      · rw [if_pos h3, char_eq_of_toNat c 13 h3]; rfl
      · rw [if_neg h3]
        by_cases h4 : c.toNat = 9
        · rw [if_pos h4, char_eq_of_toNat c 9 h4]; rfl
        · rw [if_neg h4]
          by_cases h5 : c.toNat < 32 ∨ c.toNat = 60 ∨ c.toNat = 62 ∨ c.toNat = 38
          · rw [if_pos h5]
            have hlt : c.toNat < 64 := by omega
            have hc := char_eq_of_toNat c c.toNat rfl
            generalize c.toNat = n at hc hlt
            subst hc
            interval_cases n <;> rfl
          · rw [if_neg h5]
            by_cases h6 : c.toNat = 8232 ∨ c.toNat = 8233
            · rw [if_pos h6]
              rcases h6 with h | h <;> rw [char_eq_of_toNat c _ h] <;> rfl
            · rw [if_neg h6]
              have h7 : ¬ c.toNat < 32 := fun h => h5 (Or.inl h)
              simp [parseStringBody, hq, hb, h7]

theorem parseStringBody_encodeGoChar (g : GoChar) (fuel : Nat) (tail acc : List Char) :
    parseStringBody (fuel + 1) (encodeGoChar g ++ tail) acc
      = parseStringBody fuel tail (coerceChar g :: acc) := by
  cases g with
  | rune c => exact parseStringBody_encodeChar c fuel tail acc
  | invalid b => rfl

theorem parseStringBody_encodeChars (gs : GoString) :
    ∀ (fuel : Nat) (rest acc : List Char), gs.length < fuel →
      parseStringBody fuel (encodeChars gs ++ quote :: rest) acc
        = some (acc.reverse ++ gs.map coerceChar, rest) := by
  induction gs with
  | nil =>
    intro fuel rest acc hfuel
    obtain ⟨f, rfl⟩ : ∃ f, fuel = f + 1 := ⟨fuel - 1, by simp at hfuel; omega⟩
    simp [encodeChars, parseStringBody]
  | cons g gs ih =>
    intro fuel rest acc hfuel
    obtain ⟨f, rfl⟩ : ∃ f, fuel = f + 1 := ⟨fuel - 1, by simp at hfuel; omega⟩
    have hf : gs.length < f := by simp at hfuel; omega
    rw [encodeChars, List.append_assoc, parseStringBody_encodeGoChar,
      ih f rest (coerceChar g :: acc) hf]
    simp

theorem length_le_encodeChars (gs : GoString) : gs.length ≤ (encodeChars gs).length := by
  induction gs with
  | nil => simp [encodeChars]
  | cons g gs ih =>
    have h1 : 1 ≤ (encodeGoChar g).length := by
      cases g with
      | rune c =>
        simp only [encodeGoChar]
        unfold encodeChar
        repeat' split
        all_goals simp
      | invalid b => simp [encodeGoChar]
    simp only [encodeChars, List.length_append, List.length_cons]
    omega

theorem decodeString_encodeString (s cur : GoString) (tail : List Char) :
    decodeString (encodeString s ++ tail) cur = some (toValidUTF8 s, tail) := by
  have hlen := length_le_encodeChars s
  simp only [encodeString, decodeString, List.cons_append, List.append_assoc,
    List.singleton_append, List.nil_append, if_true]
  rw [parseStringBody_encodeChars s _ tail []
    (by simp only [List.length_append, List.length_cons]; omega)]
  simp [toValidUTF8]

theorem goString_coerce (name : String) : (goString name).map coerceChar = name.toList := by
  simp [goString, List.map_map, Function.comp_def, coerceChar]

theorem parseStringBody_plainName (name : String) (rest : List Char)
    (h : encodeChars (goString name) = name.toList) :
    parseStringBody ((name.toList ++ quote :: rest).length + 1)
      (name.toList ++ quote :: rest) [] = some (name.toList, rest) := by
  have hlen : (goString name).length = name.toList.length := by simp [goString]
  have hparse := parseStringBody_encodeChars (goString name)
    ((name.toList ++ quote :: rest).length + 1) rest []
    (by simp only [hlen, List.length_append, List.length_cons]; omega)
  rw [h, goString_coerce] at hparse
  simpa using hparse

/-! ## Lemmas on JSON numbers -/

theorem digitChar_facts (d : Nat) (h : d < 10) :
    ('0' ≤ digitChar d ∧ digitChar d ≤ '9') ∧ digitChar d ≠ '-' ∧ digitChar d ≠ '+' ∧
      digitChar d ≠ 'n' ∧ (digitChar d = '0' → d = 0) ∧
      (d ≠ 0 → '1' ≤ digitChar d ∧ digitChar d ≤ '9') := by
  interval_cases d <;> decide

theorem formatBitsLoop_shape (fuel : Nat) :
    ∀ (u : Nat) (acc : List Char), u < fuel →
      ∃ d ds, formatBitsLoop fuel u acc = digitChar d :: (ds ++ acc) ∧ d < 10 ∧
        (∀ x ∈ ds, '0' ≤ x ∧ x ≤ '9') ∧ (d = 0 → u = 0 ∧ ds = []) := by
  induction fuel with
  | zero => intro u acc h; omega
  | succ fuel ih =>
    intro u acc h
    unfold formatBitsLoop
    by_cases hu : u < 10
    · exact ⟨u, [], by simp [hu], hu, by simp, fun h0 => ⟨h0, rfl⟩⟩
    · rw [if_neg hu]
      obtain ⟨d, ds, heq, hd, hds, hz⟩ := ih (u / 10) (digitChar (u % 10) :: acc) (by omega)
      have hnz : d ≠ 0 := by
        intro h0
        have := (hz h0).1
        omega
      refine ⟨d, ds ++ [digitChar (u % 10)], by simp [heq], hd, ?_, fun h0 => absurd h0 hnz⟩
      intro x hx
      rcases List.mem_append.mp hx with h1 | h1
      · exact hds x h1
      · rw [List.mem_singleton.mp h1]
        exact (digitChar_spec (u % 10) (Nat.mod_lt _ (by decide))).1

theorem formatBits_shape (u : Nat) :
    ∃ d ds, formatBits u = digitChar d :: ds ∧ d < 10 ∧
      (∀ x ∈ ds, '0' ≤ x ∧ x ≤ '9') ∧ (d = 0 → ds = []) := by
  obtain ⟨d, ds, heq, hd, hds, hz⟩ := formatBitsLoop_shape (u + 1) u [] (Nat.lt_succ_self u)
  exact ⟨d, ds, by simpa [formatBits] using heq, hd, hds, fun h0 => (hz h0).2⟩

theorem takeDigits_append (ds tail : List Char) (hds : ∀ x ∈ ds, '0' ≤ x ∧ x ≤ '9')
    (htail : delimited tail) : takeDigits (ds ++ tail) = (ds, tail) := by
  induction ds with
  | nil =>
    obtain ⟨c, t, rfl, hc⟩ := htail
    have hnd : ¬ ('0' ≤ c ∧ c ≤ '9') := by
      rcases hc with h | h | h <;> subst h <;> decide
    simp [takeDigits, hnd]
  | cons x ds ih =>
    have hx := hds x (List.mem_cons_self _ _)
    have ih2 := ih (fun y hy => hds y (List.mem_cons_of_mem _ hy))
    simp [takeDigits, hx, ih2]

theorem scanIntPart_digits (d : Nat) (ds tail : List Char) (hd : d < 10)
    (hds : ∀ x ∈ ds, '0' ≤ x ∧ x ≤ '9') (hz : d = 0 → ds = []) (htail : delimited tail) :
    scanIntPart (digitChar d :: (ds ++ tail)) = some (digitChar d :: ds, tail) := by
  have hf := digitChar_facts d hd
  unfold scanIntPart
  by_cases h0 : digitChar d = '0'
  · have hd0 := hf.2.2.2.2.1 h0
    have hnil := hz hd0
    subst hnil
    simp [h0]
  · have hd0 : d ≠ 0 := by
      intro h
      subst h
      exact h0 (by decide)
    have h19 := hf.2.2.2.2.2 hd0
    simp only [h0, if_false, h19, and_self, if_true, takeDigits_append ds tail hds htail]

theorem scanFraction_delimited (tail : List Char) (htail : delimited tail) :
    scanFraction tail = some ([], tail) := by
  obtain ⟨c, t, rfl, hc⟩ := htail
  have hne : c ≠ '.' := by rcases hc with h | h | h <;> subst h <;> decide
  simp [scanFraction, hne]

theorem scanExponent_delimited (tail : List Char) (htail : delimited tail) :
    scanExponent tail = some ([], tail) := by
  obtain ⟨c, t, rfl, hc⟩ := htail
  have hne : ¬ (c = 'e' ∨ c = 'E') := by rcases hc with h | h | h <;> subst h <;> decide
  simp [scanExponent, hne]

theorem scanNumber_digits (d : Nat) (ds tail : List Char) (hd : d < 10)
    (hds : ∀ x ∈ ds, '0' ≤ x ∧ x ≤ '9') (hz : d = 0 → ds = []) (htail : delimited tail) :
    scanNumber (digitChar d :: (ds ++ tail)) = some (digitChar d :: ds, tail) ∧
      scanNumber ('-' :: digitChar d :: (ds ++ tail)) = some ('-' :: digitChar d :: ds, tail) := by
  have hne : digitChar d ≠ '-' := (digitChar_facts d hd).2.1
  constructor
  · simp [scanNumber, hne, scanIntPart_digits d ds tail hd hds hz htail,
      scanFraction_delimited tail htail, scanExponent_delimited tail htail]
  · simp [scanNumber, scanIntPart_digits d ds tail hd hds hz htail,
      scanFraction_delimited tail htail, scanExponent_delimited tail htail]

theorem Atoi_cons (c : Char) (cs : List Char) :
    Atoi (String.mk (c :: cs)) =
      if (if c = '-' ∨ c = '+' then cs else c :: cs).isEmpty then
        .error (.NumError "Atoi" (String.mk (c :: cs)))
      else
        match parseDigits (if c = '-' ∨ c = '+' then cs else c :: cs) 0 with
        | none => .error (.NumError "Atoi" (String.mk (c :: cs)))
        | some n =>
          if (if c = '-' then -(n : Int) else (n : Int)) < -(2 : Int) ^ 63 ∨
              (2 : Int) ^ 63 ≤ (if c = '-' then -(n : Int) else (n : Int)) then
            .error (.NumError "Atoi" (String.mk (c :: cs)))
          else .ok (if c = '-' then -(n : Int) else (n : Int)) := rfl

theorem Atoi_formatBits (a : Nat) :
    (a < 2 ^ 63 → Atoi (String.mk (formatBits a)) = .ok (a : Int)) ∧
      (a ≤ 2 ^ 63 → Atoi (String.mk ('-' :: formatBits a)) = .ok (-(a : Int))) := by
  obtain ⟨d, ds, heq, hd, _, _⟩ := formatBits_shape a
  have hf := digitChar_facts d hd
  have hp := parseDigits_formatBits a
  have h263 : (2 : Int) ^ 63 = 9223372036854775808 := by norm_num
  have h263n : (2 : Nat) ^ 63 = 9223372036854775808 := by norm_num
  constructor
  · intro ha
    have hp2 : parseDigits (digitChar d :: ds) 0 = some a := by rw [← heq]; exact hp
    have hr : ¬ ((a : Int) < -(2 : Int) ^ 63 ∨ (2 : Int) ^ 63 ≤ (a : Int)) := by
      rw [h263]
      rw [h263n] at ha
      omega
    rw [heq, Atoi_cons]
    simp only [hf.2.1, hf.2.2.1, or_self, if_false, List.isEmpty_cons, Bool.false_eq_true,
      hp2, hr]
  · intro ha
    have hr : ¬ (-(a : Int) < -(2 : Int) ^ 63 ∨ (2 : Int) ^ 63 ≤ -(a : Int)) := by
      rw [h263]
      rw [h263n] at ha
      omega
    have hne : formatBits a ≠ [] := by rw [heq]; exact List.cons_ne_nil _ _
    have hemp : (formatBits a).isEmpty = false := by rw [heq]; rfl
    rw [Atoi_cons]
    simp only [true_or, if_true, hemp, Bool.false_eq_true, if_false, hp, hr]

theorem decodeInt_encodeInt (n cur : Int) (tail : List Char) (hn : int64Range n)
    (htail : delimited tail) : decodeInt (encodeInt n ++ tail) cur = some (n, tail) := by
  obtain ⟨d, ds, heq, hd, hds, hz⟩ := formatBits_shape n.natAbs
  have hf := digitChar_facts d hd
  have hscan := scanNumber_digits d ds tail hd hds hz htail
  have hatoi := Atoi_formatBits n.natAbs
  have h263 : (2 : Int) ^ 63 = 9223372036854775808 := by norm_num
  have h263n : (2 : Nat) ^ 63 = 9223372036854775808 := by norm_num
  obtain ⟨hlo, hhi⟩ := hn
  rw [h263] at hlo hhi
  rw [h263n] at hatoi
  by_cases hneg : n < 0
  · have hval : -(n.natAbs : Int) = n := by omega
    have hle : n.natAbs ≤ 9223372036854775808 := by omega
    have ha := hatoi.2 hle
    rw [heq] at ha
    have htxt : encodeInt n ++ tail = '-' :: digitChar d :: (ds ++ tail) := by
      simp [encodeInt, FormatInt, hneg, heq]
    have hnull : stripLiteral "null".toList ('-' :: digitChar d :: (ds ++ tail)) = none := by
      simp [stripLiteral]
    rw [htxt, decodeInt, hnull]
    simp only [hscan.2, ha, hval]
  · have hval : (n.natAbs : Int) = n := by omega
    have hlt : n.natAbs < 9223372036854775808 := by omega
    have ha := hatoi.1 hlt
    rw [heq] at ha
    have hnn : ¬ ('n' = digitChar d) := fun h => hf.2.2.2.1 h.symm
    have htxt : encodeInt n ++ tail = digitChar d :: (ds ++ tail) := by
      simp [encodeInt, FormatInt, hneg, heq]
    have hnull : stripLiteral "null".toList (digitChar d :: (ds ++ tail)) = none := by
      simp [stripLiteral, hnn]
    rw [htxt, decodeInt, hnull]
    simp only [hscan.1, ha, hval]

theorem decodeBool_encodeBool (b cur : Bool) (tail : List Char) :
    decodeBool (encodeBool b ++ tail) cur = some (b, tail) := by
  cases b <;> simp [decodeBool, encodeBool, stripLiteral]

/-! ## Lemmas on JSON objects and arrays -/

theorem skipWS_of_notWS (c : Char) (cs : List Char) (h : notWS c) :
    skipWS (c :: cs) = c :: cs := skipWS_cons c cs h

theorem decodeMembers_step {α : Type}
    (handler : List Char → List Char → α → Option (α × List Char))
    (name : String) (text : List Char) (cur cur1 : α)
    (hname : encodeChars (goString name) = name.toList)
    (htext : ∃ c t, text = c :: t ∧ notWS c)
    (hhandler : ∀ tail, delimited tail →
      handler name.toList (text ++ tail) cur = some (cur1, tail))
    (fuel : Nat) (c3 : Char) (after : List Char) (hc3 : c3 = ',' ∨ c3 = rbrace) :
    decodeMembers handler (fuel + 1)
        (quote :: (name.toList ++ quote :: ':' :: (text ++ c3 :: after))) cur
      = if c3 = ',' then decodeMembers handler fuel (skipWS after) cur1
        else some (cur1, after) := by
  obtain ⟨c, t, htext, hc⟩ := htext
  have hdelim : delimited (c3 :: after) :=
    ⟨c3, after, rfl, by rcases hc3 with h | h <;> simp [h]⟩
  have hkey := parseStringBody_plainName name (':' :: (text ++ c3 :: after)) hname
  have hcolon : skipWS (':' :: (text ++ c3 :: after)) = ':' :: (text ++ c3 :: after) :=
    skipWS_cons _ _ (by decide)
  have hval : skipWS (text ++ c3 :: after) = text ++ c3 :: after := by
    rw [htext]
    exact skipWS_cons _ _ hc
  have hc3ws : skipWS (c3 :: after) = c3 :: after :=
    skipWS_cons _ _ (by rcases hc3 with h | h <;> subst h <;> decide)
  have hh := hhandler (c3 :: after) hdelim
  rw [decodeMembers]
  simp only [if_true, hkey, hcolon, hval, hh, hc3ws]
  rcases hc3 with h | h
  · simp [h]
  · subst h
    have : ¬ (rbrace = ',') := by decide
    simp [this]

theorem decodeMembers_member {α : Type}
    (handler : List Char → List Char → α → Option (α × List Char))
    (m : String × List Char × (α → α)) (hm : handlesMember handler m)
    (fuel : Nat) (cur : α) (c3 : Char) (after : List Char)
    (hc3 : c3 = ',' ∨ c3 = rbrace) :
    decodeMembers handler (fuel + 1)
        (quote :: (m.1.toList ++ quote :: ':' :: (m.2.1 ++ c3 :: after))) cur
      = if c3 = ',' then decodeMembers handler fuel (skipWS after) (m.2.2 cur)
        else some (m.2.2 cur, after) :=
  decodeMembers_step handler m.1 m.2.1 cur (m.2.2 cur) hm.1 hm.2.1 (hm.2.2 cur) fuel c3 after
    hc3

theorem joinMembers_cons_cons (m m2 : String × List Char) (ms : List (String × List Char)) :
    joinMembers (m :: m2 :: ms)
      = quote :: (m.1.toList ++ quote :: ':' :: (m.2 ++ ',' :: joinMembers (m2 :: ms))) := rfl

theorem joinMembers_head (m : String × List Char) (ms : List (String × List Char)) :
    ∃ t, joinMembers (m :: ms) = quote :: t := by
  cases ms with
  | nil => exact ⟨_, rfl⟩
  | cons m2 ms => exact ⟨_, rfl⟩

theorem decodeMembers_joinMembers {α : Type}
    (handler : List Char → List Char → α → Option (α × List Char))
    (ms : List (String × List Char × (α → α))) :
    ms ≠ [] → (∀ m ∈ ms, handlesMember handler m) →
    ∀ (fuel : Nat) (cur : α) (rest : List Char), ms.length ≤ fuel →
      decodeMembers handler fuel
          (joinMembers (ms.map (fun m => (m.1, m.2.1))) ++ rbrace :: rest) cur
        = some (ms.foldl (fun c m => m.2.2 c) cur, rest) := by
  induction ms with
  | nil => intro h; exact absurd rfl h
  | cons m ms ih =>
    intro _ hall fuel cur rest hfuel
    obtain ⟨f, rfl⟩ : ∃ f, fuel = f + 1 := ⟨fuel - 1, by simp at hfuel; omega⟩
    have hm := hall m (List.mem_cons_self _ _)
    cases ms with
    | nil =>
      have hstep := decodeMembers_member handler m hm f cur rbrace rest (Or.inr rfl)
      have hne : ¬ (rbrace = ',') := by decide
      simp only [hne, if_false] at hstep
      simpa [joinMembers] using hstep
    | cons m2 ms =>
      have hstep := decodeMembers_member handler m hm f cur ','
        (joinMembers ((m2 :: ms).map (fun m => (m.1, m.2.1))) ++ rbrace :: rest) (Or.inl rfl)
      simp only [if_true] at hstep
      obtain ⟨t, ht⟩ := joinMembers_head (m2.1, m2.2.1) (ms.map (fun m => (m.1, m.2.1)))
      have hws : skipWS (joinMembers ((m2 :: ms).map (fun m => (m.1, m.2.1))) ++ rbrace :: rest)
          = joinMembers ((m2 :: ms).map (fun m => (m.1, m.2.1))) ++ rbrace :: rest := by
        rw [List.map_cons, ht]
        exact skipWS_cons _ _ (by decide)
      rw [hws] at hstep
      have hih := ih (List.cons_ne_nil _ _)
        (fun x hx => hall x (List.mem_cons_of_mem _ hx)) f (m.2.2 cur) rest
        (by simp at hfuel ⊢; omega)
      rw [hih] at hstep
      rw [List.map_cons, List.map_cons, joinMembers_cons_cons]
      simpa using hstep

theorem decodeObjectBody_joinMembers {α : Type}
    (handler : List Char → List Char → α → Option (α × List Char))
    (ms : List (String × List Char × (α → α))) (hne : ms ≠ [])
    (hall : ∀ m ∈ ms, handlesMember handler m) (fuel : Nat) (cur : α) (rest : List Char)
    (hfuel : ms.length ≤ fuel) :
    decodeObjectBody handler fuel
        (joinMembers (ms.map (fun m => (m.1, m.2.1))) ++ rbrace :: rest) cur
      = some (ms.foldl (fun c m => m.2.2 c) cur, rest) := by
  cases ms with
  | nil => exact absurd rfl hne
  | cons m ms =>
    obtain ⟨t, ht⟩ := joinMembers_head (m.1, m.2.1) (ms.map (fun m => (m.1, m.2.1)))
    have hdec := decodeMembers_joinMembers handler (m :: ms) hne hall fuel cur rest hfuel
    rw [List.map_cons, ht] at hdec ⊢
    have hq : ¬ (quote = rbrace) := by decide
    have hws : skipWS (quote :: t ++ rbrace :: rest) = quote :: (t ++ rbrace :: rest) :=
      skipWS_cons _ _ (by decide)
    rw [decodeObjectBody, hws]
    simp only [hq, if_false]
    exact hdec

/-! ## Lemmas on the JSON of a release -/

theorem encodeString_head (s : GoString) : ∃ t, encodeString s = quote :: t ∧ notWS quote :=
  ⟨_, rfl, by decide⟩

theorem encodeBool_head (b : Bool) : ∃ c t, encodeBool b = c :: t ∧ notWS c := by
  cases b
  · exact ⟨'f', _, rfl, by decide⟩
  · exact ⟨'t', _, rfl, by decide⟩

theorem encodeInt_head (n : Int) : ∃ c t, encodeInt n = c :: t ∧ notWS c := by
  obtain ⟨d, ds, heq, hd, _, _⟩ := formatBits_shape n.natAbs
  by_cases hneg : n < 0
  · exact ⟨'-', digitChar d :: ds, by simp [encodeInt, FormatInt, hneg, heq], by decide⟩
  · refine ⟨digitChar d, ds, by simp [encodeInt, FormatInt, hneg, heq], ?_⟩
    interval_cases d <;> decide

theorem releaseUpdates_members (r : MockRelease) :
    (releaseUpdates r).map (fun m => (m.1, m.2.1)) = releaseMembers r := by
  unfold releaseUpdates releaseMembers
  by_cases h1 : r.HelmReleaseName = [] <;> by_cases h2 : r.HelmReleaseRevision = 0 <;>
    by_cases h3 : r.HelmReleaseNamespace = [] <;> simp [h1, h2, h3]

theorem releaseUpdates_length (r : MockRelease) :
    (releaseUpdates r).length ≤ 10 ∧ releaseUpdates r ≠ [] := by
  unfold releaseUpdates
  by_cases h1 : r.HelmReleaseName = [] <;> by_cases h2 : r.HelmReleaseRevision = 0 <;>
    by_cases h3 : r.HelmReleaseNamespace = [] <;> simp [h1, h2, h3]

theorem releaseUpdates_foldl (r : MockRelease) :
    (releaseUpdates r).foldl (fun c m => m.2.2 c) zeroRelease = coerceRelease r := by
  obtain ⟨a1, a2, a3, a4, a5, a6, a7, a8, a9, a10⟩ := r
  unfold releaseUpdates zeroRelease coerceRelease
  by_cases h1 : a8 = [] <;> by_cases h2 : a9 = 0 <;> by_cases h3 : a10 = [] <;>
    simp [h1, h2, h3, toValidUTF8]

theorem releaseUpdates_handled (fuel depth : Nat) (r : MockRelease) (hr : validRelease r) :
    ∀ m ∈ releaseUpdates r, handlesMember (releaseHandler fuel depth) m := by
  obtain ⟨h4, h5, h9⟩ := hr
  have hstr : ∀ (name : String) (v : GoString) (f : MockRelease → MockRelease),
      encodeChars (goString name) = name.toList →
      (∀ cur tail, releaseHandler fuel depth name.toList (encodeString v ++ tail) cur
        = some (f cur, tail)) →
      handlesMember (releaseHandler fuel depth) (name, encodeString v, f) :=
    fun name v f hn hh =>
      ⟨hn, ⟨quote, _, rfl, by decide⟩, fun cur tail _ => hh cur tail⟩
  have hint : ∀ (name : String) (n : Int) (f : MockRelease → MockRelease),
      encodeChars (goString name) = name.toList →
      (∀ cur tail, delimited tail →
        releaseHandler fuel depth name.toList (encodeInt n ++ tail) cur
          = some (f cur, tail)) →
      handlesMember (releaseHandler fuel depth) (name, encodeInt n, f) :=
    fun name n f hn hh => ⟨hn, encodeInt_head n, hh⟩
  intro m hm
  unfold releaseUpdates at hm
  rcases List.mem_append.mp hm with hm | h
  · rcases List.mem_append.mp hm with hm | h
    · rcases List.mem_append.mp hm with hm | h
      · simp only [List.mem_cons, List.mem_singleton, List.not_mem_nil, or_false] at hm
        rcases hm with h | h | h | h | h | h | h
        · subst h
          exact hstr _ _ _ (by decide) (fun cur tail => by
            simp +decide [releaseHandler, decodeString_encodeString])
        · subst h
          exact hstr _ _ _ (by decide) (fun cur tail => by
            simp +decide [releaseHandler, decodeString_encodeString])
        · subst h
          exact hstr _ _ _ (by decide) (fun cur tail => by
            simp +decide [releaseHandler, decodeString_encodeString])
        · subst h
          exact hint _ _ _ (by decide) (fun cur tail ht => by
            simp +decide [releaseHandler, decodeInt_encodeInt _ _ _ h4 ht])
        · subst h
          exact hint _ _ _ (by decide) (fun cur tail ht => by
            simp +decide [releaseHandler, decodeInt_encodeInt _ _ _ h5 ht])
        · subst h
          exact ⟨(by decide : encodeChars (goString "isRequired") = "isRequired".toList),
            encodeBool_head _, fun cur tail _ => by
            simp +decide [releaseHandler, decodeBool_encodeBool]⟩
        · subst h
          exact hstr _ _ _ (by decide) (fun cur tail => by
            simp +decide [releaseHandler, decodeString_encodeString])
      · by_cases h1 : r.HelmReleaseName = []
        · simp [h1] at h
        · simp only [h1, if_false, List.mem_singleton] at h
          subst h
          exact hstr _ _ _ (by decide) (fun cur tail => by
            simp +decide [releaseHandler, decodeString_encodeString])
    · by_cases h2 : r.HelmReleaseRevision = 0
      · simp [h2] at h
      · simp only [h2, if_false, List.mem_singleton] at h
        subst h
        exact hint _ _ _ (by decide) (fun cur tail ht => by
          simp +decide [releaseHandler, decodeInt_encodeInt _ _ _ h9 ht])
  · by_cases h3 : r.HelmReleaseNamespace = []
    · simp [h3] at h
    · simp only [h3, if_false, List.mem_singleton] at h
      subst h
      exact hstr _ _ _ (by decide) (fun cur tail => by
        simp +decide [releaseHandler, decodeString_encodeString])

theorem encodeRelease_append (r : MockRelease) (tail : List Char) :
    encodeRelease r ++ tail
      = lbrace :: (joinMembers ((releaseUpdates r).map (fun m => (m.1, m.2.1)))
          ++ rbrace :: tail) := by
  rw [releaseUpdates_members]
  simp [encodeRelease, encodeObject]

theorem decodeObjectBody_release (fuel depth : Nat) (r : MockRelease) (tail : List Char)
    (hfuel : 10 ≤ fuel) (hr : validRelease r) :
    decodeObjectBody (releaseHandler fuel depth) fuel
        (joinMembers ((releaseUpdates r).map (fun m => (m.1, m.2.1))) ++ rbrace :: tail)
        zeroRelease
      = some (coerceRelease r, tail) := by
  have h := decodeObjectBody_joinMembers (releaseHandler fuel depth) (releaseUpdates r)
    (releaseUpdates_length r).2 (releaseUpdates_handled fuel depth r hr) fuel zeroRelease tail
    (le_trans (releaseUpdates_length r).1 hfuel)
  rw [releaseUpdates_foldl] at h
  exact h

theorem decodeRelease_encodeRelease (fuel depth : Nat) (r : MockRelease) (tail : List Char)
    (hfuel : 10 ≤ fuel) (hr : validRelease r) :
    decodeRelease fuel depth (encodeRelease r ++ tail) zeroRelease
      = some (coerceRelease r, tail) := by
  rw [encodeRelease_append, decodeRelease]
  simp only [if_true]
  exact decodeObjectBody_release fuel depth r tail hfuel hr

theorem decodeReleasePtr_encodeReleasePtr (fuel : Nat) (p : Option MockRelease)
    (tail : List Char) (hfuel : 10 ≤ fuel) (hp : ∀ r, p = some r → validRelease r) :
    decodeReleasePtr fuel (encodeReleasePtr p ++ tail) none
      = some (p.map coerceRelease, tail) := by
  cases p with
  | none =>
    have hne : ¬ ('n' = lbrace) := by decide
    simp [encodeReleasePtr, decodeReleasePtr, hne, stripLiteral]
  | some r =>
    rw [encodeReleasePtr, encodeRelease_append, decodeReleasePtr]
    simp only [if_true, Option.getD_none]
    rw [decodeObjectBody_release fuel 2 r tail hfuel (hp r rfl)]
    rfl

/-! ## Lemmas on the JSON of a sequence of releases -/

theorem joinElems_cons_cons (x y : List Char) (xs : List (List Char)) :
    joinElems (x :: y :: xs) = x ++ ',' :: joinElems (y :: xs) := rfl

theorem decodeElems_joinElems {β : Type} (elem : Nat → List Char → Option (β × List Char))
    (enc : β → List Char) (dec : β → β) (xs : List β) :
    xs ≠ [] →
    (∀ x ∈ xs, (∃ c t, enc x = c :: t ∧ notWS c) ∧
      ∀ i tail, delimited tail → elem i (enc x ++ tail) = some (dec x, tail)) →
    ∀ (fuel : Nat) (acc : List β) (rest : List Char), xs.length ≤ fuel →
      decodeElems elem fuel (joinElems (xs.map enc) ++ ']' :: rest) acc
        = some (acc.reverse ++ xs.map dec, rest) := by
  induction xs with
  | nil => intro h; exact absurd rfl h
  | cons x xs ih =>
    intro _ hall fuel acc rest hfuel
    obtain ⟨f, rfl⟩ : ∃ f, fuel = f + 1 := ⟨fuel - 1, by simp at hfuel; omega⟩
    obtain ⟨_, hx⟩ := hall x (List.mem_cons_self _ _)
    cases xs with
    | nil =>
      have hd : delimited (']' :: rest) := ⟨']', rest, rfl, Or.inr (Or.inr rfl)⟩
      have hws : skipWS (']' :: rest) = ']' :: rest := skipWS_cons _ _ (by decide)
      have hne : ¬ (']' = ',') := by decide
      simp only [List.map_cons, List.map_nil, joinElems, decodeElems, hx _ _ hd, hws, hne,
        if_false, if_true]
      simp
    | cons y ys =>
      have hd : delimited (',' :: (joinElems ((y :: ys).map enc) ++ ']' :: rest)) :=
        ⟨',', _, rfl, Or.inl rfl⟩
      have hws : skipWS (',' :: (joinElems ((y :: ys).map enc) ++ ']' :: rest))
          = ',' :: (joinElems ((y :: ys).map enc) ++ ']' :: rest) :=
        skipWS_cons _ _ (by decide)
      obtain ⟨⟨c, t, hc, hcws⟩, _⟩ := hall y (List.mem_cons_of_mem _ (List.mem_cons_self _ _))
      have hws2 : skipWS (joinElems ((y :: ys).map enc) ++ ']' :: rest)
          = joinElems ((y :: ys).map enc) ++ ']' :: rest := by
        cases ys with
        | nil =>
          simp only [List.map_cons, List.map_nil, joinElems, hc, List.cons_append]
          exact skipWS_cons _ _ hcws
        | cons z zs =>
          simp only [List.map_cons, joinElems_cons_cons, hc, List.cons_append]
          exact skipWS_cons _ _ hcws
      have hih := ih (List.cons_ne_nil _ _)
        (fun z hz => hall z (List.mem_cons_of_mem _ hz)) f (dec x :: acc) rest
        (by simp at hfuel ⊢; omega)
      have htxt : joinElems ((x :: y :: ys).map enc) ++ ']' :: rest
          = enc x ++ ',' :: (joinElems ((y :: ys).map enc) ++ ']' :: rest) := by
        simp [joinElems_cons_cons]
      rw [htxt, decodeElems, hx _ _ hd]
      simp only [hws, if_true, hws2, hih]
      simp

theorem encodeRelease_head (r : MockRelease) :
    ∃ c t, encodeRelease r = c :: t ∧ notWS c := ⟨lbrace, _, rfl, by decide⟩

theorem decodeReleases_encodeReleases (fuel : Nat) (rs : Option (List MockRelease))
    (tail : List Char) (hfuel : 10 ≤ fuel) (hlen : (rs.getD []).length ≤ fuel)
    (hvalid : ∀ r ∈ rs.getD [], validRelease r) :
    decodeReleases fuel (encodeReleases rs ++ tail) none
      = some (rs.map (fun l => l.map coerceRelease), tail) := by
  cases rs with
  | none =>
    have hne : ¬ ('n' = '[') := by decide
    simp [encodeReleases, decodeReleases, hne, stripLiteral]
  | some rs =>
    cases rs with
    | nil =>
      have hws : skipWS (']' :: tail) = ']' :: tail := skipWS_cons _ _ (by decide)
      simp [encodeReleases, encodeArray, joinElems, decodeReleases, decodeArrayBody, hws]
    | cons r rs =>
      have helems := decodeElems_joinElems
        (fun i elemInput => decodeRelease fuel 3 elemInput
          (((none : Option (List MockRelease)).getD []).getD i zeroRelease))
        encodeRelease coerceRelease (r :: rs) (List.cons_ne_nil _ _)
        (fun x hx => ⟨encodeRelease_head x, fun i tl _ => by
          simpa using decodeRelease_encodeRelease fuel 3 x tl hfuel (hvalid x hx)⟩)
        fuel [] tail hlen
      obtain ⟨t, ht⟩ : ∃ t, joinElems ((r :: rs).map encodeRelease) = lbrace :: t := by
        cases rs with
        | nil => exact ⟨_, rfl⟩
        | cons r2 rs2 => exact ⟨_, rfl⟩
      have hws : skipWS (joinElems ((r :: rs).map encodeRelease) ++ ']' :: tail)
          = joinElems ((r :: rs).map encodeRelease) ++ ']' :: tail := by
        rw [ht]
        exact skipWS_cons _ _ (by decide)
      have hne : ¬ (lbrace = ']') := by decide
      have htxt : encodeReleases (some (r :: rs)) ++ tail
          = '[' :: (joinElems ((r :: rs).map encodeRelease) ++ ']' :: tail) := by
        simp [encodeReleases, encodeArray]
      rw [htxt, decodeReleases]
      simp only [if_true, decodeArrayBody, hws]
      rw [ht] at helems ⊢
      simp only [List.cons_append, hne, if_false]
      rw [List.cons_append] at helems
      rw [helems]
      rfl

/-! ## Lemmas on the JSON of the mock data -/

theorem encodeReleasePtr_head (p : Option MockRelease) :
    ∃ c t, encodeReleasePtr p = c :: t ∧ notWS c := by
  cases p with
  | none => exact ⟨'n', _, rfl, by decide⟩
  | some r => exact ⟨lbrace, _, rfl, by decide⟩

theorem encodeReleases_head (rs : Option (List MockRelease)) :
    ∃ c t, encodeReleases rs = c :: t ∧ notWS c := by
  cases rs with
  | none => exact ⟨'n', _, rfl, by decide⟩
  | some rs => exact ⟨'[', _, rfl, by decide⟩

theorem encodeMockData_text (d : MockData) :
    encodeMockData d
      = lbrace :: quote :: ("currentRelease".toList ++ quote :: ':' ::
          (encodeReleasePtr d.CurrentRelease ++ ',' ::
            (quote :: ("deployedReleases".toList ++ quote :: ':' ::
              (encodeReleases d.DeployedReleases ++ ',' ::
                (quote :: ("availableReleases".toList ++ quote :: ':' ::
                  (encodeReleases d.AvailableReleases ++ rbrace :: [])))))))) := by
  simp [encodeMockData, encodeObject, joinMembers]

theorem decodeMockData_encodeMockData (fuel : Nat) (d : MockData) (hfuel : 10 ≤ fuel)
    (hdep : (d.DeployedReleases.getD []).length ≤ fuel)
    (hav : (d.AvailableReleases.getD []).length ≤ fuel) (hd : validMockData d) :
    decodeMockData fuel (encodeMockData d) zeroMockData = some (coerceMockData d, []) := by
  obtain ⟨hv1, hv2, hv3⟩ := hd
  obtain ⟨f, rfl⟩ : ∃ f, fuel = f + 3 := ⟨fuel - 3, by omega⟩
  have hs1 := decodeMembers_step (mockDataHandler (f + 3)) "currentRelease"
    (encodeReleasePtr d.CurrentRelease) zeroMockData
    { zeroMockData with CurrentRelease := d.CurrentRelease.map coerceRelease } (by decide)
    (encodeReleasePtr_head _)
    (fun tail _ => by
      simp +decide [mockDataHandler, zeroMockData,
        decodeReleasePtr_encodeReleasePtr (f + 3) d.CurrentRelease tail hfuel hv1])
    (f + 2) ','
    (quote :: ("deployedReleases".toList ++ quote :: ':' ::
      (encodeReleases d.DeployedReleases ++ ',' ::
        (quote :: ("availableReleases".toList ++ quote :: ':' ::
          (encodeReleases d.AvailableReleases ++ rbrace :: []))))))
    (Or.inl rfl)
  have hs2 := decodeMembers_step (mockDataHandler (f + 3)) "deployedReleases"
    (encodeReleases d.DeployedReleases)
    { zeroMockData with CurrentRelease := d.CurrentRelease.map coerceRelease }
    { zeroMockData with
        CurrentRelease := d.CurrentRelease.map coerceRelease,
        DeployedReleases := d.DeployedReleases.map (fun l => l.map coerceRelease) }
    (by decide)
    (encodeReleases_head _)
    (fun tail _ => by
      simp +decide [mockDataHandler, zeroMockData,
        decodeReleases_encodeReleases (f + 3) d.DeployedReleases tail hfuel hdep hv2])
    (f + 1) ','
    (quote :: ("availableReleases".toList ++ quote :: ':' ::
      (encodeReleases d.AvailableReleases ++ rbrace :: [])))
    (Or.inl rfl)
  have hs3 := decodeMembers_step (mockDataHandler (f + 3)) "availableReleases"
    (encodeReleases d.AvailableReleases)
    { zeroMockData with
        CurrentRelease := d.CurrentRelease.map coerceRelease,
        DeployedReleases := d.DeployedReleases.map (fun l => l.map coerceRelease) }
    (coerceMockData d) (by decide)
    (encodeReleases_head _)
    (fun tail _ => by
      simp +decide [mockDataHandler, zeroMockData, coerceMockData,
        decodeReleases_encodeReleases (f + 3) d.AvailableReleases tail hfuel hav hv3])
    f rbrace [] (Or.inr rfl)
  have hq : ∀ t : List Char, skipWS (quote :: t) = quote :: t :=
    fun t => skipWS_cons _ _ (by decide)
  have hne : ¬ (rbrace = ',') := by decide
  have hqb : ¬ (quote = rbrace) := by decide
  simp only [if_true, hq] at hs1 hs2
  simp only [hne, if_false] at hs3
  rw [hs2, hs3] at hs1
  rw [encodeMockData_text, decodeMockData]
  simp only [if_true, decodeObjectBody, hq, hqb, if_false]
  exact hs1

theorem length_le_joinElems (xs : List (List Char)) (h : ∀ x ∈ xs, 1 ≤ x.length) :
    xs.length ≤ (joinElems xs).length := by
  induction xs with
  | nil => simp [joinElems]
  | cons x xs ih =>
    have hx := h x (List.mem_cons_self _ _)
    have ih2 := ih (fun y hy => h y (List.mem_cons_of_mem _ hy))
    cases xs with
    | nil => simpa [joinElems] using hx
    | cons y ys =>
      rw [joinElems_cons_cons]
      simp only [List.length_append, List.length_cons] at ih2 ⊢
      omega

theorem length_le_encodeReleases (rs : Option (List MockRelease)) :
    (rs.getD []).length ≤ (encodeReleases rs).length := by
  cases rs with
  | none => simp [encodeReleases]
  | some rs =>
    have h := length_le_joinElems (rs.map encodeRelease) (fun x hx => by
      obtain ⟨r, _, rfl⟩ := List.mem_map.mp hx
      simp [encodeRelease, encodeObject])
    simp only [List.length_map] at h
    simp only [Option.getD_some, encodeReleases, encodeArray, List.length_cons,
      List.length_append, List.length_nil]
    omega

theorem length_encodeMockData (d : MockData) :
    10 ≤ (encodeMockData d).length ∧
      (d.DeployedReleases.getD []).length ≤ (encodeMockData d).length ∧
      (d.AvailableReleases.getD []).length ≤ (encodeMockData d).length := by
  have h1 := length_le_encodeReleases d.DeployedReleases
  have h2 := length_le_encodeReleases d.AvailableReleases
  rw [encodeMockData_text]
  simp only [List.length_cons, List.length_append]
  have h3 : "currentRelease".toList.length = 14 := by decide
  refine ⟨by omega, by omega, by omega⟩

theorem encodeMockData_length_ne_zero (d : MockData) :
    (String.mk (encodeMockData d)).toList.length ≠ 0 := by
  have h := (length_encodeMockData d).1
  show (encodeMockData d).length ≠ 0
  omega

theorem Unmarshal_encodeMockData (d : MockData) (hd : validMockData d) :
    Unmarshal (String.mk (encodeMockData d)) = .ok (coerceMockData d) := by
  obtain ⟨h10, hdep, hav⟩ := length_encodeMockData d
  have hdec := decodeMockData_encodeMockData ((encodeMockData d).length + 1) d (by omega)
    (by omega) (by omega) hd
  have hws : skipWS (encodeMockData d) = encodeMockData d := by
    rw [encodeMockData_text]
    exact skipWS_cons _ _ (by decide)
  show (match decodeMockData ((encodeMockData d).length + 1) (skipWS (encodeMockData d))
      zeroMockData with
    | none => Except.error (Error.json "cannot unmarshal into MockData")
    | some (mockData, rest) =>
      if skipWS rest = [] then Except.ok mockData
      else Except.error (Error.json "invalid character after top-level value")) = _
  rw [hws, hdec]
  rfl

/-! ## Strings that are valid UTF-8 -/

theorem toValidUTF8_of_valid (s : GoString) (h : validUTF8 s) : toValidUTF8 s = s := by
  induction s with
  | nil => rfl
  | cons g gs ih =>
    obtain ⟨c, rfl⟩ := h g (List.mem_cons_self _ _)
    have hgs : toValidUTF8 gs = gs := ih (fun x hx => h x (List.mem_cons_of_mem _ hx))
    simp only [toValidUTF8, List.map_cons, coerceChar] at hgs ⊢
    rw [hgs]

theorem validUTF8_goString (s : String) : validUTF8 (goString s) := by
  intro g hg
  obtain ⟨c, _, rfl⟩ := List.mem_map.mp hg
  exact ⟨c, rfl⟩

theorem coerceRelease_of_valid (r : MockRelease) (h : validStrings r) :
    coerceRelease r = r := by
  obtain ⟨h1, h2, h3, h4, h5, h6⟩ := h
  simp only [coerceRelease, toValidUTF8_of_valid _ h1, toValidUTF8_of_valid _ h2,
    toValidUTF8_of_valid _ h3, toValidUTF8_of_valid _ h4, toValidUTF8_of_valid _ h5,
    toValidUTF8_of_valid _ h6]

/-! ## Lemmas on the secret store -/

theorem isSecret_replacement (ns : String) (secret : Secret) :
    isSecret ns secret.Name (ns, secret) = true := by
  simp [isSecret]

theorem find_replaceSecret_self (ns : String) (secret : Secret)
    (l : List (String × Secret)) (e : String × Secret)
    (h : l.find? (isSecret ns secret.Name) = some e) :
    (replaceSecret ns secret l).find? (isSecret ns secret.Name) = some (ns, secret) := by
  induction l with
  | nil => simp at h
  | cons x l ih =>
    by_cases hx : isSecret ns secret.Name x = true
    · simp [replaceSecret, hx, List.find?, isSecret_replacement]
    · have hx2 : isSecret ns secret.Name x = false := by simpa using hx
      simp only [List.find?, hx2] at h
      simp [replaceSecret, hx2, List.find?, ih h]

theorem find_replaceSecret_other (ns : String) (secret : Secret)
    (l : List (String × Secret)) (ns1 name1 : String)
    (h : ¬ (ns1 = ns ∧ name1 = secret.Name)) :
    (replaceSecret ns secret l).find? (isSecret ns1 name1) = l.find? (isSecret ns1 name1) := by
  have hnew : isSecret ns1 name1 (ns, secret) = false := by
    simp only [isSecret, Bool.and_eq_false_imp, beq_iff_eq]
    intro h1
    simp only [beq_eq_false_iff_ne, ne_eq]
    intro h2
    exact h ⟨h1.symm, h2.symm⟩
  induction l with
  | nil => rfl
  | cons x l ih =>
    by_cases hx : isSecret ns secret.Name x = true
    · have hx1 : isSecret ns1 name1 x = false := by
        simp only [isSecret, Bool.and_eq_true, beq_iff_eq] at hx
        simp only [isSecret, Bool.and_eq_false_imp, beq_iff_eq]
        intro h1
        simp only [beq_eq_false_iff_ne, ne_eq]
        intro h2
        exact h ⟨h1.symm.trans hx.1, h2.symm.trans hx.2⟩
      simp [replaceSecret, hx, List.find?, hnew, hx1, ih]
    · have hx2 : isSecret ns secret.Name x = false := by simpa using hx
      simp only [replaceSecret, hx2, Bool.false_eq_true, if_false, List.find?, ih]

theorem replaceSecret_idem (ns : String) (secret : Secret) (l : List (String × Secret)) :
    replaceSecret ns secret (replaceSecret ns secret l) = replaceSecret ns secret l := by
  induction l with
  | nil => rfl
  | cons x l ih =>
    by_cases hx : isSecret ns secret.Name x = true
    · simp [replaceSecret, hx, isSecret_replacement, ih]
    · have hx2 : isSecret ns secret.Name x = false := by simpa using hx
      simp [replaceSecret, hx2, ih]

theorem SecretsGet_name (c : SecretsClient) (ns name : String) (secret : Secret)
    (h : SecretsGet c ns name = .ok secret) :
    secret.Name = name ∧ c.secrets.find? (isSecret ns name) = some (ns, secret) := by
  unfold SecretsGet at h
  cases hf : c.secrets.find? (isSecret ns name) with
  | none => simp [hf] at h
  | some e =>
    simp only [hf, Except.ok.injEq] at h
    have hp := List.find?_some hf
    simp only [isSecret, Bool.and_eq_true, beq_iff_eq] at hp
    obtain ⟨e1, e2⟩ := e
    simp only at h hp
    subst h
    exact ⟨hp.2, by rw [hp.1]⟩

theorem SecretsUpdate_ok (c : SecretsClient) (ns : String) (old new : Secret)
    (hget : SecretsGet c ns old.Name = .ok old) (hname : new.Name = old.Name)
    (hupd : c.updateError = none) :
    SecretsUpdate c ns new = (.ok new, updatedClient c ns new) := by
  have hfind := (SecretsGet_name c ns old.Name old hget).2
  unfold SecretsUpdate
  simp only [hupd, hname, hfind, updatedClient]

theorem SecretsGet_updatedClient (c : SecretsClient) (ns : String) (old new : Secret)
    (hget : SecretsGet c ns old.Name = .ok old) (hname : new.Name = old.Name) :
    SecretsGet (updatedClient c ns new) ns old.Name = .ok new := by
  have hfind := (SecretsGet_name c ns old.Name old hget).2
  rw [← hname] at hfind ⊢
  unfold SecretsGet updatedClient
  simp only [find_replaceSecret_self ns new c.secrets _ hfind]

theorem SecretsGet_updatedClient_other (c : SecretsClient) (ns : String) (new : Secret)
    (ns1 name1 : String) (h : ¬ (ns1 = ns ∧ name1 = new.Name)) :
    SecretsGet (updatedClient c ns new) ns1 name1 = SecretsGet c ns1 name1 := by
  unfold SecretsGet updatedClient
  simp only [find_replaceSecret_other ns new c.secrets ns1 name1 h]

/-! ## Lemmas on the operations of the mock store -/

theorem GetMockData_of_secret (m : Mock) (secret : Secret)
    (hget : SecretsGet m.clientset m.ns replicatedSecretName = .ok secret) :
    GetMockData m =
      if (dataGet secret.Data replicatedMockDataKey).toList.length = 0 then (none, none)
      else
        match Unmarshal (dataGet secret.Data replicatedMockDataKey) with
        | .error err => (none, some (Wrap err "failed to unmarshal mock data"))
        | .ok mockData => (some mockData, none) := by
  unfold GetMockData
  simp only [hget]

theorem GetMockData_missing (m : Mock) (err : Error)
    (hget : SecretsGet m.clientset m.ns replicatedSecretName = .error err) :
    GetMockData m = (none, some (Wrap err "failed to get secret replicated-dev")) := by
  unfold GetMockData
  simp only [hget]

theorem secretWith_eq (secret : Secret) (b : String) :
    ({ (if secret.Data = none then { secret with Data := some [] } else secret) with
        Data := some (mapSet
          ((if secret.Data = none then { secret with Data := some [] } else secret).Data.getD [])
          replicatedMockDataKey b) } : Secret)
      = secretWith secret b := by
  obtain ⟨name, data⟩ := secret
  cases data <;> simp [secretWith]

theorem SetMockData_of_secret (m : Mock) (mockData : MockData) (secret : Secret)
    (hget : SecretsGet m.clientset m.ns replicatedSecretName = .ok secret)
    (hupd : m.clientset.updateError = none) :
    SetMockData m mockData =
      (none, { m with clientset := (updatedClient m.clientset m.ns
        (secretWith secret (String.mk (encodeMockData mockData)))) }) := by
  have hname := (SecretsGet_name _ _ _ _ hget).1
  have hget2 : SecretsGet m.clientset m.ns secret.Name = .ok secret := by rw [hname]; exact hget
  have hu := SecretsUpdate_ok m.clientset m.ns secret
    (secretWith secret (String.mk (encodeMockData mockData))) hget2 rfl hupd
  unfold SetMockData
  simp only [Marshal, hget, secretWith_eq, hu]

theorem SetMockData_update_fails (m : Mock) (mockData : MockData) (secret : Secret)
    (err : Error) (hget : SecretsGet m.clientset m.ns replicatedSecretName = .ok secret)
    (hupd : m.clientset.updateError = some err) :
    (SetMockData m mockData).1 = some (Wrap err "failed to update secret replicated-dev") := by
  unfold SetMockData
  simp only [Marshal, hget, secretWith_eq, SecretsUpdate, hupd]

theorem DeleteMockData_of_secret (m : Mock) (secret : Secret)
    (hget : SecretsGet m.clientset m.ns replicatedSecretName = .ok secret)
    (hupd : m.clientset.updateError = none) :
    DeleteMockData m =
      (none,
        { m with clientset := (updatedClient m.clientset m.ns (secretWithout secret)) }) := by
  have hname := (SecretsGet_name _ _ _ _ hget).1
  have hget2 : SecretsGet m.clientset m.ns secret.Name = .ok secret := by rw [hname]; exact hget
  have hu := SecretsUpdate_ok m.clientset m.ns secret (secretWithout secret) hget2 rfl hupd
  unfold DeleteMockData
  simp only [hget]
  have hs : ({ secret with
      Data := (secret.Data.map (fun data => mapDelete data replicatedMockDataKey)) } : Secret)
      = secretWithout secret := rfl
  rw [hs, hu]

theorem DeleteMockData_update_fails (m : Mock) (secret : Secret) (err : Error)
    (hget : SecretsGet m.clientset m.ns replicatedSecretName = .ok secret)
    (hupd : m.clientset.updateError = some err) :
    (DeleteMockData m).1 = some (Wrap err "failed to update secret replicated-dev") := by
  unfold DeleteMockData
  simp only [hget, SecretsUpdate, hupd]

theorem SecretsGet_after_update (m : Mock) (secret new : Secret)
    (hget : SecretsGet m.clientset m.ns replicatedSecretName = .ok secret)
    (hname : new.Name = secret.Name) :
    SecretsGet (updatedClient m.clientset m.ns new) m.ns replicatedSecretName = .ok new := by
  have hn := (SecretsGet_name _ _ _ _ hget).1
  have hget2 : SecretsGet m.clientset m.ns secret.Name = .ok secret := by rw [hn]; exact hget
  have h := SecretsGet_updatedClient m.clientset m.ns secret new hget2 hname
  rw [hn] at h
  exact h

theorem dataGet_secretWith (secret : Secret) (b : String) :
    dataGet (secretWith secret b).Data replicatedMockDataKey = b := by
  simp [dataGet, secretWith, mapGet_mapSet_self]

theorem mapGet_mapDelete_self (data : GoMap) (k : String) : mapGet (mapDelete data k) k = none := by
  unfold mapGet mapDelete
  induction data with
  | nil => rfl
  | cons e data ih =>
    obtain ⟨a, b⟩ := e
    by_cases hak : a = k
    · subst hak
      simpa [List.filter] using ih
    · have hk : (a != k) = true := by simpa using hak
      have hka : (k == a) = false := by
        simpa using fun h : k = a => hak h.symm
      simp only [List.filter, hk, List.lookup, hka, ih]

theorem dataGet_secretWithout (secret : Secret) :
    dataGet (secretWithout secret).Data replicatedMockDataKey = "" := by
  obtain ⟨name, data⟩ := secret
  cases data with
  | none => rfl
  | some data => simp [dataGet, secretWithout, mapGet_mapDelete_self]

theorem secretWithout_idem (secret : Secret) :
    secretWithout (secretWithout secret) = secretWithout secret := by
  obtain ⟨name, data⟩ := secret
  cases data with
  | none => rfl
  | some data => simp [secretWithout, mapDelete, List.filter_filter]

/-! ## The mock store: claims -/

theorem validMockData_testMockData : validMockData testMockData := by
  refine ⟨?_, ?_, ?_⟩
  · intro r h
    cases h
    decide
  · intro r h
    simp only [testMockData, Option.getD_some, List.mem_cons, List.mem_singleton,
      List.not_mem_nil, or_false] at h
    rcases h with h | h <;> subst h <;> decide
  · intro r h
    simp only [testMockData, Option.getD_some, List.mem_singleton] at h
    subst h
    decide

theorem coerceMockData_testMockData : coerceMockData testMockData = testMockData := by
  decide

theorem Unmarshal_testMockData : Unmarshal (payloadOf testMockData) = .ok testMockData :=
  (Unmarshal_encodeMockData testMockData validMockData_testMockData).trans
    (congrArg Except.ok coerceMockData_testMockData)

theorem validMockData_brokenMockData : validMockData brokenMockData := by
  refine ⟨?_, ?_, ?_⟩
  · intro r h
    cases h
    decide
  · intro r h
    cases h
  · intro r h
    cases h

theorem validStrings_helmRelease : validStrings helmRelease :=
  ⟨validUTF8_goString "1.2.3", validUTF8_goString "channel-id", validUTF8_goString "",
    validUTF8_goString "notes", validUTF8_goString "app", validUTF8_goString "default"⟩

theorem SetMockData_then_GetCurrentRelease (m : Mock) (mockData : MockData) (secret : Secret)
    (hvalid : validMockData mockData)
    (hget : SecretsGet m.clientset m.ns replicatedSecretName = .ok secret)
    (hupd : m.clientset.updateError = none) :
    (SetMockData m mockData).1 = none ∧
      GetCurrentRelease (SetMockData m mockData).2
        = (mockData.CurrentRelease.map coerceRelease, none) := by
  have hset := SetMockData_of_secret m mockData secret hget hupd
  have hget2 := SecretsGet_after_update m secret
    (secretWith secret (String.mk (encodeMockData mockData))) hget rfl
  refine ⟨by rw [hset], ?_⟩
  rw [hset]
  unfold GetCurrentRelease
  rw [GetMockData_of_secret _ _ hget2, dataGet_secretWith,
    if_neg (encodeMockData_length_ne_zero mockData),
    Unmarshal_encodeMockData mockData hvalid]
  rfl

/-- C15: when the backing secret holds a payload that decodes to a mock data set,
`GetAllReleases` returns, with no error, the deployed releases followed by the
available releases, each in its stored order; the length of the result is the sum of
the two lengths. -/
theorem getAllReleases_concat (m : Mock) (secret : Secret) (mockData : MockData)
    (hget : SecretsGet m.clientset m.ns replicatedSecretName = .ok secret)
    (hpayload : (dataGet secret.Data replicatedMockDataKey).toList.length ≠ 0)
    (hdecode : Unmarshal (dataGet secret.Data replicatedMockDataKey) = .ok mockData) :
    GetAllReleases m
        = (some (mockData.DeployedReleases.getD [] ++ mockData.AvailableReleases.getD []),
            none) ∧
      (GetAllReleases m).1.map List.length
        = some ((mockData.DeployedReleases.getD []).length
            + (mockData.AvailableReleases.getD []).length) := by
  have h : GetAllReleases m
      = (some (mockData.DeployedReleases.getD [] ++ mockData.AvailableReleases.getD []),
          none) := by
    unfold GetAllReleases
    rw [GetMockData_of_secret m secret hget, if_neg hpayload, hdecode]
    simp
  exact ⟨h, by rw [h]; simp⟩

/-- C15 on a store that holds deployed releases A and B and the available release C:
the result is A, B, C. -/
theorem getAllReleases_concat_witness :
    GetAllReleases (testStore (some [(replicatedMockDataKey, payloadOf testMockData)]))
      = (some [testRelease "A" 1, testRelease "B" 2, testRelease "C" 3], none) :=
  (getAllReleases_concat (testStore (some [(replicatedMockDataKey, payloadOf testMockData)]))
    { Name := "replicated", Data := some [(replicatedMockDataKey, payloadOf testMockData)] }
    testMockData rfl (encodeMockData_length_ne_zero testMockData)
    Unmarshal_testMockData).1

/-- C16, as stated, fails: the backing secret exists and its update succeeds, the
current release of the mock data has the version label of the one byte `0xff`, which is
not valid UTF-8; `SetMockData` returns no error, and the `GetCurrentRelease` that
follows returns, with no error, a release whose version label is the character U+FFFD,
not the release that was set. -/
theorem set_then_getCurrentRelease_invalid_utf8 :
    SecretsGet (testStore none).clientset (testStore none).ns replicatedSecretName
        = .ok { Name := "replicated", Data := none } ∧
      (testStore none).clientset.updateError = none ∧
      brokenMockData.CurrentRelease
        = some { zeroRelease with VersionLabel := [GoChar.invalid 255] } ∧
      (SetMockData (testStore none) brokenMockData).1 = none ∧
      GetCurrentRelease (SetMockData (testStore none) brokenMockData).2
        = (some { zeroRelease with VersionLabel := [GoChar.rune replacementChar] }, none) ∧
      GetCurrentRelease (SetMockData (testStore none) brokenMockData).2
        ≠ (brokenMockData.CurrentRelease, none) := by
  have h := SetMockData_then_GetCurrentRelease (testStore none) brokenMockData
    { Name := "replicated", Data := none } validMockData_brokenMockData rfl rfl
  refine ⟨rfl, rfl, rfl, h.1, h.2, ?_⟩
  rw [h.2]
  decide

/-- C16, amended: on a store whose backing secret exists and whose update succeeds, for
every mock data set whose current release holds only strings that are valid UTF-8 (the
integers being Go `int` values) `SetMockData` returns no error, and a
`GetCurrentRelease` that follows returns, with no error, the release that was set,
field for field, or nil when the current release was nil; what the secret held before
does not matter. -/
theorem set_then_getCurrentRelease (m : Mock) (mockData : MockData) (secret : Secret)
    (hvalid : validMockData mockData)
    (hstrings : ∀ r, mockData.CurrentRelease = some r → validStrings r)
    (hget : SecretsGet m.clientset m.ns replicatedSecretName = .ok secret)
    (hupd : m.clientset.updateError = none) :
    (SetMockData m mockData).1 = none ∧
      GetCurrentRelease (SetMockData m mockData).2 = (mockData.CurrentRelease, none) := by
  have h := SetMockData_then_GetCurrentRelease m mockData secret hvalid hget hupd
  refine ⟨h.1, ?_⟩
  rw [h.2]
  cases hcur : mockData.CurrentRelease with
  | none => rfl
  | some r =>
    show (some (coerceRelease r), (none : Option Error)) = (some r, none)
    rw [coerceRelease_of_valid r (hstrings r hcur)]

/-- C16 amended, on a store that held a payload that is not JSON: after `SetMockData` the
current release is the helm release that was set, helm fields included; and after
setting a mock data set without current release it is nil. -/
theorem set_then_getCurrentRelease_witness :
    GetCurrentRelease
        (SetMockData (testStore (some [(replicatedMockDataKey, "x")])) testMockData).2
        = (some helmRelease, none) ∧
      GetCurrentRelease
        (SetMockData (testStore (some [(replicatedMockDataKey, "x")])) zeroMockData).2
        = (none, none) :=
  ⟨(set_then_getCurrentRelease (testStore (some [(replicatedMockDataKey, "x")])) testMockData
      { Name := "replicated", Data := some [(replicatedMockDataKey, "x")] }
      validMockData_testMockData
      (fun r h => by cases h; exact validStrings_helmRelease) rfl rfl).2,
    (set_then_getCurrentRelease (testStore (some [(replicatedMockDataKey, "x")])) zeroMockData
      { Name := "replicated", Data := some [(replicatedMockDataKey, "x")] }
      ⟨(fun r h => by cases h), (fun r h => by cases h), (fun r h => by cases h)⟩
      (fun r h => by cases h) rfl rfl).2⟩

/-- C17: on a store whose backing secret exists and whose update succeeds,
`DeleteMockData` returns no error, whether or not the mock-data key was there and
whether or not the secret has a data map; a `HasMocks` that follows returns
`(false, nil)`; and a second `DeleteMockData` returns no error and leaves the secrets as
the first left them. -/
theorem delete_then_hasMocks (m : Mock) (secret : Secret)
    (hget : SecretsGet m.clientset m.ns replicatedSecretName = .ok secret)
    (hupd : m.clientset.updateError = none) :
    (DeleteMockData m).1 = none ∧
      HasMocks (DeleteMockData m).2 = (false, none) ∧
      (DeleteMockData (DeleteMockData m).2).1 = none ∧
      (DeleteMockData (DeleteMockData m).2).2.clientset.secrets
        = (DeleteMockData m).2.clientset.secrets ∧
      HasMocks (DeleteMockData (DeleteMockData m).2).2 = (false, none) := by
  have hdel := DeleteMockData_of_secret m secret hget hupd
  have hget2 := SecretsGet_after_update m secret (secretWithout secret) hget rfl
  have hmocks : ∀ (m2 : Mock) (s2 : Secret),
      SecretsGet m2.clientset m2.ns replicatedSecretName = .ok (secretWithout s2) →
      HasMocks m2 = (false, none) := by
    intro m2 s2 h
    unfold HasMocks
    rw [GetMockData_of_secret _ _ h, dataGet_secretWithout]
    rfl
  have hdel2 := DeleteMockData_of_secret
    { m with clientset := (updatedClient m.clientset m.ns (secretWithout secret)) }
    (secretWithout secret) hget2 hupd
  have hget3 := SecretsGet_after_update
    { m with clientset := (updatedClient m.clientset m.ns (secretWithout secret)) }
    (secretWithout secret) (secretWithout (secretWithout secret)) hget2 rfl
  rw [hdel]
  refine ⟨rfl, hmocks _ secret hget2, by rw [hdel2], ?_, ?_⟩
  · rw [hdel2]
    simp only [updatedClient, secretWithout_idem, replaceSecret_idem]
  · rw [hdel2]
    exact hmocks _ (secretWithout secret) hget3

/-- C17 on a secret without data map and on a secret that holds mock data and another
key. -/
theorem delete_then_hasMocks_witness :
    ((DeleteMockData (testStore none)).1 = none ∧
        HasMocks (DeleteMockData (testStore none)).2 = (false, none)) ∧
      ((DeleteMockData (testStore (some licensedData))).1 = none ∧
        HasMocks (DeleteMockData (testStore (some licensedData))).2 = (false, none)) :=
  ⟨⟨(delete_then_hasMocks (testStore none) { Name := "replicated", Data := none }
        rfl rfl).1,
      (delete_then_hasMocks (testStore none) { Name := "replicated", Data := none }
        rfl rfl).2.1⟩,
    ⟨(delete_then_hasMocks (testStore (some licensedData))
        { Name := "replicated", Data := some licensedData } rfl rfl).1,
      (delete_then_hasMocks (testStore (some licensedData))
        { Name := "replicated", Data := some licensedData } rfl rfl).2.1⟩⟩

theorem dataGet_eq_lookup (data : Option GoMap) (k : String) :
    dataGet data k = (dataLookup data k).getD "" := by
  cases data <;> rfl

/-- C18: when the backing secret exists, an absent mock-data key and a zero-length
payload give `(false, nil)` from `HasMocks` and `(nil, nil)` from `GetCurrentRelease`,
`GetAvailableReleases` and `GetAllReleases`; a non-empty payload that decodes gives
`(true, nil)`; a non-empty payload that does not decode gives a non-nil error (with
false). So `HasMocks` returns true exactly when the key is present with a non-empty
payload that decodes. -/
theorem hasMocks_by_payload (m : Mock) (secret : Secret)
    (hget : SecretsGet m.clientset m.ns replicatedSecretName = .ok secret) :
    ((dataLookup secret.Data replicatedMockDataKey = none ∨
          dataLookup secret.Data replicatedMockDataKey = some "") →
        HasMocks m = (false, none) ∧ GetCurrentRelease m = (none, none) ∧
          GetAvailableReleases m = (none, none) ∧ GetAllReleases m = (none, none)) ∧
      (∀ b mockData, dataLookup secret.Data replicatedMockDataKey = some b →
        b.toList.length ≠ 0 → Unmarshal b = .ok mockData → HasMocks m = (true, none)) ∧
      (∀ b err, dataLookup secret.Data replicatedMockDataKey = some b →
        b.toList.length ≠ 0 → Unmarshal b = .error err →
        HasMocks m = (false,
          some (Wrap (Wrap err "failed to unmarshal mock data") "failed to get mock data"))) ∧
      ((HasMocks m).1 = true ↔
        ∃ b mockData, dataLookup secret.Data replicatedMockDataKey = some b ∧
          b.toList.length ≠ 0 ∧ Unmarshal b = .ok mockData) := by
  have hgm := GetMockData_of_secret m secret hget
  rw [dataGet_eq_lookup] at hgm
  have hempty : (dataLookup secret.Data replicatedMockDataKey = none ∨
      dataLookup secret.Data replicatedMockDataKey = some "") →
      GetMockData m = (none, none) := by
    intro h
    rw [hgm]
    rcases h with h | h <;> rw [h] <;> rfl
  have hok : ∀ b mockData, dataLookup secret.Data replicatedMockDataKey = some b →
      b.toList.length ≠ 0 → Unmarshal b = .ok mockData →
      GetMockData m = (some mockData, none) := by
    intro b mockData hb hlen hdec
    rw [hgm, hb, Option.getD_some, if_neg hlen, hdec]
  have herr : ∀ b err, dataLookup secret.Data replicatedMockDataKey = some b →
      b.toList.length ≠ 0 → Unmarshal b = .error err →
      GetMockData m = (none, some (Wrap err "failed to unmarshal mock data")) := by
    intro b err hb hlen hdec
    rw [hgm, hb, Option.getD_some, if_neg hlen, hdec]
  refine ⟨fun h => ?_, fun b mockData hb hlen hdec => ?_, fun b err hb hlen hdec => ?_, ?_⟩
  · have h0 := hempty h
    simp [HasMocks, GetCurrentRelease, GetAvailableReleases, GetAllReleases, h0]
  · simp [HasMocks, hok b mockData hb hlen hdec]
  · simp [HasMocks, herr b err hb hlen hdec]
  · constructor
    · intro htrue
      cases hl : dataLookup secret.Data replicatedMockDataKey with
      | none =>
        have h0 := hempty (Or.inl hl)
        simp [HasMocks, h0] at htrue
      | some b =>
        by_cases hlen : b.toList.length = 0
        · have hb : b = "" := by
            cases b with
            | mk l =>
              have : l = [] := List.length_eq_zero.mp hlen
              subst this
              rfl
          subst hb
          have h0 := hempty (Or.inr hl)
          simp [HasMocks, h0] at htrue
        · cases hdec : Unmarshal b with
          | error err =>
            simp [HasMocks, herr b err hl hlen hdec] at htrue
          | ok mockData => exact ⟨b, mockData, rfl, hlen, hdec⟩
    · rintro ⟨b, mockData, hb, hlen, hdec⟩
      simp [HasMocks, hok b mockData hb hlen hdec]

/-- C18 on a secret without the key, on a secret with an empty payload, on a secret with
a payload that is not JSON, and on a secret with the payload of a mock data set. -/
theorem hasMocks_by_payload_witness :
    HasMocks (testStore (some [("license", "abc")])) = (false, none) ∧
      HasMocks (testStore (some [(replicatedMockDataKey, "")])) = (false, none) ∧
      HasMocks (testStore (some [(replicatedMockDataKey, "x")]))
        = (false, some (Wrap (Wrap (.json "cannot unmarshal into MockData")
            "failed to unmarshal mock data") "failed to get mock data")) ∧
      HasMocks (testStore (some licensedData)) = (true, none) :=
  ⟨((hasMocks_by_payload (testStore (some [("license", "abc")]))
      { Name := "replicated", Data := some [("license", "abc")] } rfl).1
      (Or.inl (by decide))).1,
    ((hasMocks_by_payload (testStore (some [(replicatedMockDataKey, "")]))
      { Name := "replicated", Data := some [(replicatedMockDataKey, "")] } rfl).1
      (Or.inr (by decide))).1,
    (hasMocks_by_payload (testStore (some [(replicatedMockDataKey, "x")]))
      { Name := "replicated", Data := some [(replicatedMockDataKey, "x")] } rfl).2.2.1
      "x" (.json "cannot unmarshal into MockData") (by decide) (by decide) (by decide),
    (hasMocks_by_payload (testStore (some licensedData))
      { Name := "replicated", Data := some licensedData } rfl).2.1
      (payloadOf testMockData) testMockData rfl
      (encodeMockData_length_ne_zero testMockData)
      Unmarshal_testMockData⟩

/-- C19: if the backing secret does not exist in the namespace of the store,
`SetMockData` returns a non-nil error for every mock data set and leaves the state of
the client as it was: no secret is created and no update is made. `DeleteMockData`
does the same, and the read operations return a non-nil error. -/
theorem operations_fail_without_secret (m : Mock) (mockData : MockData) (err : Error)
    (hget : SecretsGet m.clientset m.ns replicatedSecretName = .error err) :
    SetMockData m mockData = (some (Wrap err "failed to get secret replicated-dev"), m) ∧
      DeleteMockData m = (some (Wrap err "failed to get secret replicated-dev"), m) ∧
      HasMocks m = (false,
        some (Wrap (Wrap err "failed to get secret replicated-dev")
          "failed to get mock data")) ∧
      GetCurrentRelease m = (none,
        some (Wrap (Wrap err "failed to get secret replicated-dev")
          "failed to get mock data")) ∧
      GetAvailableReleases m = (none,
        some (Wrap (Wrap err "failed to get secret replicated-dev")
          "failed to get mock data")) ∧
      GetAllReleases m = (none,
        some (Wrap (Wrap err "failed to get secret replicated-dev")
          "failed to get mock data")) := by
  have hgm := GetMockData_missing m err hget
  refine ⟨?_, ?_, ?_, ?_, ?_, ?_⟩
  · unfold SetMockData
    simp only [Marshal, hget]
  · unfold DeleteMockData
    simp only [hget]
  · unfold HasMocks
    rw [hgm]
  · unfold GetCurrentRelease
    rw [hgm]
  · unfold GetAvailableReleases
    rw [hgm]
  · unfold GetAllReleases
    rw [hgm]

/-- C19 on a store whose namespace has no backing secret: `SetMockData` fails, the
secrets are as they were and no update was made. -/
theorem operations_fail_without_secret_witness :
    (SetMockData storeWithoutSecret testMockData).1
        = some (Wrap (.api "secret not found: replicated")
            "failed to get secret replicated-dev") ∧
      (SetMockData storeWithoutSecret testMockData).2.clientset.secrets
        = storeWithoutSecret.clientset.secrets ∧
      (SetMockData storeWithoutSecret testMockData).2.clientset.updateCalls = [] := by
  have h := (operations_fail_without_secret storeWithoutSecret testMockData
    (.api "secret not found: replicated") (by decide)).1
  rw [h]
  exact ⟨rfl, rfl, rfl⟩

theorem dataLookup_secretWith (secret : Secret) (b k : String)
    (hk : k ≠ replicatedMockDataKey) :
    dataLookup (secretWith secret b).Data k = dataLookup secret.Data k := by
  obtain ⟨name, data⟩ := secret
  cases data with
  | none =>
    show mapGet (mapSet [] replicatedMockDataKey b) k = none
    rw [mapGet_mapSet_ne _ _ _ _ hk]
    rfl
  | some data =>
    show mapGet (mapSet data replicatedMockDataKey b) k = mapGet data k
    exact mapGet_mapSet_ne _ _ _ _ hk

theorem dataLookup_secretWithout (secret : Secret) (k : String)
    (hk : k ≠ replicatedMockDataKey) :
    dataLookup (secretWithout secret).Data k = dataLookup secret.Data k := by
  obtain ⟨name, data⟩ := secret
  cases data with
  | none => rfl
  | some data =>
    simp only [dataLookup, secretWithout, Option.map_some', mapGet, mapDelete]
    exact lookup_filter_ne data replicatedMockDataKey k hk

/-- C20: a successful `SetMockData` or `DeleteMockData` leaves the backing secret with
the name it had and, under every key other than `REPLICATED_MOCK_DATA`, with the entry
it had (no entry where there was none); and whether they succeed or not, every other
secret of the cluster is as it was. -/
theorem set_delete_frame (m : Mock) (secret : Secret)
    (hget : SecretsGet m.clientset m.ns replicatedSecretName = .ok secret) :
    (∀ mockData, (SetMockData m mockData).1 = none →
        ∃ after, SecretsGet (SetMockData m mockData).2.clientset m.ns replicatedSecretName
            = .ok after ∧ after.Name = secret.Name ∧
          ∀ k, k ≠ replicatedMockDataKey → dataLookup after.Data k = dataLookup secret.Data k) ∧
      ((DeleteMockData m).1 = none →
        ∃ after, SecretsGet (DeleteMockData m).2.clientset m.ns replicatedSecretName
            = .ok after ∧ after.Name = secret.Name ∧
          ∀ k, k ≠ replicatedMockDataKey → dataLookup after.Data k = dataLookup secret.Data k) ∧
      (∀ mockData ns1 name1, ¬ (ns1 = m.ns ∧ name1 = replicatedSecretName) →
        SecretsGet (SetMockData m mockData).2.clientset ns1 name1
            = SecretsGet m.clientset ns1 name1 ∧
          SecretsGet (DeleteMockData m).2.clientset ns1 name1
            = SecretsGet m.clientset ns1 name1) := by
  have hname := (SecretsGet_name _ _ _ _ hget).1
  refine ⟨fun mockData hok => ?_, fun hok => ?_, fun mockData ns1 name1 hother => ?_⟩
  · cases hupd : m.clientset.updateError with
    | some err =>
      rw [SetMockData_update_fails m mockData secret err hget hupd] at hok
      cases hok
    | none =>
      rw [SetMockData_of_secret m mockData secret hget hupd]
      exact ⟨secretWith secret (String.mk (encodeMockData mockData)),
        SecretsGet_after_update m secret _ hget rfl, rfl,
        fun k hk => dataLookup_secretWith secret _ k hk⟩
  · cases hupd : m.clientset.updateError with
    | some err =>
      rw [DeleteMockData_update_fails m secret err hget hupd] at hok
      cases hok
    | none =>
      rw [DeleteMockData_of_secret m secret hget hupd]
      exact ⟨secretWithout secret, SecretsGet_after_update m secret _ hget rfl, rfl,
        fun k hk => dataLookup_secretWithout secret k hk⟩
  · cases hupd : m.clientset.updateError with
    | some err =>
      constructor
      · unfold SetMockData
        simp only [Marshal, hget, secretWith_eq, SecretsUpdate, hupd]
        rfl
      · unfold DeleteMockData
        simp only [hget, SecretsUpdate, hupd]
        rfl
    | none =>
      rw [SetMockData_of_secret m mockData secret hget hupd,
        DeleteMockData_of_secret m secret hget hupd]
      have h1 : ¬ (ns1 = m.ns ∧
          name1 = (secretWith secret (String.mk (encodeMockData mockData))).Name) := by
        rw [show (secretWith secret (String.mk (encodeMockData mockData))).Name = secret.Name
          from rfl, hname]
        exact hother
      have h2 : ¬ (ns1 = m.ns ∧ name1 = (secretWithout secret).Name) := by
        rw [show (secretWithout secret).Name = secret.Name from rfl, hname]
        exact hother
      exact ⟨SecretsGet_updatedClient_other m.clientset m.ns _ ns1 name1 h1,
        SecretsGet_updatedClient_other m.clientset m.ns _ ns1 name1 h2⟩

/-- C20 on a backing secret that holds a license besides the mock data: after
`SetMockData` and after `DeleteMockData` the license is still there, and no key
`other` has appeared. -/
theorem set_delete_frame_witness :
    (∃ after, SecretsGet (SetMockData (testStore (some licensedData)) zeroMockData).2.clientset
          "test-namespace" replicatedSecretName = .ok after ∧
        dataLookup after.Data "license" = some "abc" ∧ dataLookup after.Data "other" = none) ∧
      (∃ after, SecretsGet (DeleteMockData (testStore (some licensedData))).2.clientset
          "test-namespace" replicatedSecretName = .ok after ∧
        dataLookup after.Data "license" = some "abc" ∧ dataLookup after.Data "other" = none) := by
  have h := set_delete_frame (testStore (some licensedData))
    { Name := "replicated", Data := some licensedData } rfl
  obtain ⟨a1, hg1, _, hk1⟩ := h.1 zeroMockData rfl
  obtain ⟨a2, hg2, _, hk2⟩ := h.2.1 rfl
  exact ⟨⟨a1, hg1, (hk1 "license" (by decide)).trans (by decide),
      (hk1 "other" (by decide)).trans (by decide)⟩,
    ⟨a2, hg2, (hk2 "license" (by decide)).trans (by decide),
      (hk2 "other" (by decide)).trans (by decide)⟩⟩

end MockStore
